import Mathlib

/-!
Verification of the dice-roll rigging and replay engine of the
`diceroll-physics` repository.

The embedding below follows the canonical implementation of the engine
(the dice-game component and its playback hook): quaternion slerp,
orienting-torque extraction, landing-orientation construction, the
trajectory segmentation (`findMidairPoint` / `findSettleIndex`), the
physics-influenced and closing-transition frame generators, the main
`rigRecording` function, the shadow frame recorder, the face-value
readout `getShadowDiceValue`, the shadow-throw entry point
`executeShadowThrow`, and the playback driver `updatePlayback`.

JavaScript numbers are modelled as exact reals; `Math.random()` calls
are modelled by explicit random streams passed as parameters; the
`Promise` returned by the shadow-throw entry point is modelled by an
`Except`-valued function whose eventual resolution value is a parameter.
-/

set_option maxHeartbeats 1000000

/-- A 3-component vector, as used for positions, velocities and angular
velocities of the dice bodies. -/
@[ext]
structure Vec3 where
  x : ℝ
  y : ℝ
  z : ℝ

instance : Inhabited Vec3 := ⟨⟨0, 0, 0⟩⟩

/-- A quaternion in the (x, y, z, w) component layout used by the math
and physics libraries of the source. -/
@[ext]
structure Quat where
  x : ℝ
  y : ℝ
  z : ℝ
  w : ℝ

instance : Inhabited Quat := ⟨⟨0, 0, 0, 1⟩⟩

/-- Componentwise negation of a quaternion (the other representative of
the same rotation under the double cover). -/
def negQ (q : Quat) : Quat := ⟨-q.x, -q.y, -q.z, -q.w⟩

/-- Quaternion conjugate; the math library's rotational `invert` is the
conjugate (it assumes unit quaternions). -/
def quatConj (q : Quat) : Quat := ⟨-q.x, -q.y, -q.z, q.w⟩

/-- Hamilton product `a * b`, as computed by the math library's
`multiplyQuaternions`. -/
def quatMul (a b : Quat) : Quat :=
  ⟨a.x * b.w + a.w * b.x + a.y * b.z - a.z * b.y,
   a.y * b.w + a.w * b.y + a.z * b.x - a.x * b.z,
   a.z * b.w + a.w * b.z + a.x * b.y - a.y * b.x,
   a.w * b.w - a.x * b.x - a.y * b.y - a.z * b.z⟩

/-- Four-component dot product of two quaternions. -/
def dotQ (a b : Quat) : ℝ := a.x * b.x + a.y * b.y + a.z * b.z + a.w * b.w

/-- Squared euclidean norm of a quaternion. -/
def normSqQ (q : Quat) : ℝ := q.x ^ 2 + q.y ^ 2 + q.z ^ 2 + q.w ^ 2

/-- A quaternion is a unit quaternion when its four components have
euclidean norm one. -/
def unitQ (q : Quat) : Prop := normSqQ q = 1

/-- Quaternion from a (unit) axis and an angle, as the math library's
`setFromAxisAngle`. -/
noncomputable def quatFromAxisAngle (axis : Vec3) (angle : ℝ) : Quat :=
  ⟨axis.x * Real.sin (angle / 2), axis.y * Real.sin (angle / 2),
   axis.z * Real.sin (angle / 2), Real.cos (angle / 2)⟩

/-- Dot product of 3-vectors. -/
def dotV (a b : Vec3) : ℝ := a.x * b.x + a.y * b.y + a.z * b.z

/-- Cross product of 3-vectors. -/
def crossV (a b : Vec3) : Vec3 :=
  ⟨a.y * b.z - a.z * b.y, a.z * b.x - a.x * b.z, a.x * b.y - a.y * b.x⟩

/-- Scalar multiple of a 3-vector. -/
def vecScale (c : ℝ) (v : Vec3) : Vec3 := ⟨c * v.x, c * v.y, c * v.z⟩

/-- Euclidean length of a 3-vector. -/
noncomputable def vecNorm (v : Vec3) : ℝ :=
  Real.sqrt (v.x ^ 2 + v.y ^ 2 + v.z ^ 2)

/-- Normalization by dividing each component by the length, as the math
library's `normalize` (division by zero yields the zero vector here,
where the source would produce NaNs; all uses are on nonzero vectors). -/
noncomputable def vecNormalize (v : Vec3) : Vec3 :=
  ⟨v.x / vecNorm v, v.y / vecNorm v, v.z / vecNorm v⟩

/-- Rotation of a vector by a quaternion (the sandwich product
`q v q⁻¹`), as the math library's `applyQuaternion`. -/
def applyQuatVec (q : Quat) (v : Vec3) : Vec3 :=
  let ix := q.w * v.x + q.y * v.z - q.z * v.y
  let iy := q.w * v.y + q.z * v.x - q.x * v.z
  let iz := q.w * v.z + q.x * v.y - q.y * v.x
  let iw := -q.x * v.x - q.y * v.y - q.z * v.z
  ⟨ix * q.w + iw * (-q.x) + iy * (-q.z) - iz * (-q.y),
   iy * q.w + iw * (-q.y) + iz * (-q.x) - ix * (-q.z),
   iz * q.w + iw * (-q.z) + ix * (-q.y) - iy * (-q.x)⟩

/-- One die's kinematic snapshot: position, orientation, linear and
angular velocity. -/
structure DieState where
  position : Vec3
  quaternion : Quat
  velocity : Vec3
  angularVelocity : Vec3

instance : Inhabited DieState := ⟨⟨default, default, default, default⟩⟩

/-- One timestamped snapshot of every die's kinematic state
(`PhysicsFrame` in the source). -/
structure Frame where
  timestamp : ℝ
  diceStates : List DieState

instance : Inhabited Frame := ⟨⟨0, []⟩⟩

/-- A recorded shadow throw (`ShadowRecording` in the source).  The
optional fields `isRigged` and `desiredResults` are set only by the
Rigging Engine. -/
structure ShadowRecording where
  frames : List Frame
  finalResults : List ℕ
  isComplete : Bool
  isRigged : Option Bool := none
  desiredResults : Option (List ℕ) := none

instance : Inhabited ShadowRecording := ⟨⟨[], [], false, none, none⟩⟩

/-- Number of dice of a recording, read off its per-die results list. -/
def ShadowRecording.dieCount (r : ShadowRecording) : ℕ := r.finalResults.length

/-- Spherical linear interpolation between two quaternions exactly as
implemented by `slerpQuaternions` in the dice-game component: early
returns at `t = 0` and `t = 1`, a pass-through when the raw dot product
has absolute value at least one, a midpoint average when the sine of the
half angle is tiny, and otherwise the standard two-ratio formula on the
raw (uncorrected) dot product. -/
noncomputable def slerpQuaternions (qa qb : Quat) (t : ℝ) : Quat :=
  if t = 0 then ⟨qa.x, qa.y, qa.z, qa.w⟩
  else if t = 1 then ⟨qb.x, qb.y, qb.z, qb.w⟩
  else
    let cosHalfTheta := qa.x * qb.x + qa.y * qb.y + qa.z * qb.z + qa.w * qb.w
    if 1 ≤ |cosHalfTheta| then ⟨qa.x, qa.y, qa.z, qa.w⟩
    else
      let halfTheta := Real.arccos cosHalfTheta
      let sinHalfTheta := Real.sqrt (1 - cosHalfTheta * cosHalfTheta)
      if |sinHalfTheta| < 0.001 then
        ⟨qa.x * 0.5 + qb.x * 0.5, qa.y * 0.5 + qb.y * 0.5,
         qa.z * 0.5 + qb.z * 0.5, qa.w * 0.5 + qb.w * 0.5⟩
      else
        let ratioA := Real.sin ((1 - t) * halfTheta) / sinHalfTheta
        let ratioB := Real.sin (t * halfTheta) / sinHalfTheta
        ⟨qa.x * ratioA + qb.x * ratioB, qa.y * ratioA + qb.y * ratioB,
         qa.z * ratioA + qb.z * ratioB, qa.w * ratioA + qb.w * ratioB⟩

/-- The orienting torque of the dice-game component: the axis-angle
decomposition of `target * current⁻¹`, with the axis scaled by
`angle * strength * 1.5`.  The angle stays zero and the axis stays the
zero vector when the difference quaternion's `w` has absolute value at
least `0.9999` (the two orientations nearly coincide) or when the sine
factor is at most `0.0001`. -/
noncomputable def calculateOrientingTorque
    (currentRotation targetRotation : Quat) (strength : ℝ) : Vec3 :=
  let diffQuat := quatMul targetRotation (quatConj currentRotation)
  let angleAxis : ℝ × Vec3 :=
    if |diffQuat.w| < 0.9999 then
      let angle := 2 * Real.arccos diffQuat.w
      let s := Real.sqrt (1 - diffQuat.w * diffQuat.w)
      if 0.0001 < s then
        (angle, vecNormalize ⟨diffQuat.x / s, diffQuat.y / s, diffQuat.z / s⟩)
      else (angle, ⟨0, 0, 0⟩)
    else (0, ⟨0, 0, 0⟩)
  vecScale (angleAxis.1 * strength * 1.5) angleAxis.2

/-- Fixed face-value-to-local-normal table of the dice-game component
(`FACE_VALUE_TO_NORMAL`): 1 → +X, 6 → -X, 2 → +Y, 5 → -Y, 3 → +Z,
4 → -Z. -/
def FACE_VALUE_TO_NORMAL (faceValue : ℕ) : Option Vec3 :=
  match faceValue with
  | 1 => some ⟨1, 0, 0⟩
  | 6 => some ⟨-1, 0, 0⟩
  | 2 => some ⟨0, 1, 0⟩
  | 5 => some ⟨0, -1, 0⟩
  | 3 => some ⟨0, 0, 1⟩
  | 4 => some ⟨0, 0, -1⟩
  | _ => none

/-- Orientation that puts the requested face's normal along world-up
(`calculateOrientationForFaceValue`); unknown face values produce the
identity quaternion. -/
noncomputable def calculateOrientationForFaceValue (faceValue : ℕ) : Quat :=
  match FACE_VALUE_TO_NORMAL faceValue with
  | none => ⟨0, 0, 0, 1⟩
  | some upVector =>
    let worldUp : Vec3 := ⟨0, 1, 0⟩
    let angle := Real.arccos (dotV upVector worldUp / (vecNorm upVector * vecNorm worldUp))
    if |angle| < 0.001 ∨ |angle - Real.pi| < 0.001 then
      if |angle| < 0.001 then ⟨0, 0, 0, 1⟩
      else quatFromAxisAngle ⟨1, 0, 0⟩ Real.pi
    else quatFromAxisAngle (vecNormalize (crossV upVector worldUp)) angle

/-- Landing orientation for a desired face value
(`calculateLandingOrientation`): aligns the opposite face's normal with
world-down, then premultiplies a random rotation about world-up of up to
±22.5°.  The parameter `r` is the `Math.random()` sample in `[0, 1)`
used for that jitter. -/
noncomputable def calculateLandingOrientation (faceValue : ℕ) (r : ℝ) : Quat :=
  match FACE_VALUE_TO_NORMAL faceValue with
  | none => ⟨0, 0, 0, 1⟩
  | some targetNormal =>
    let oppositeVector := vecScale (-1) targetNormal
    let worldDown : Vec3 := ⟨0, -1, 0⟩
    let angle := Real.arccos
      (dotV oppositeVector worldDown / (vecNorm oppositeVector * vecNorm worldDown))
    let q :=
      if |angle| < 0.001 ∨ |angle - Real.pi| < 0.001 then
        if |angle| < 0.001 then (⟨0, 0, 0, 1⟩ : Quat)
        else quatFromAxisAngle ⟨1, 0, 0⟩ Real.pi
      else quatFromAxisAngle (vecNormalize (crossV oppositeVector worldDown)) angle
    let randomYRotation := quatFromAxisAngle ⟨0, 1, 0⟩ ((r - 0.5) * Real.pi * 0.25)
    quatMul randomYRotation q

/-- Average die height of a frame, as computed inside `findMidairPoint`:
the sum of the y-positions divided by the number of dice. -/
noncomputable def avgHeight (f : Frame) : ℝ :=
  (f.diceStates.foldl (fun sum state => sum + state.position.y) 0) /
    (f.diceStates.length : ℝ)

/-- First pass of `findMidairPoint`: records the peak average height and
its index, scanning forward with a strict improvement test starting from
peak height `0` and peak index `0`. -/
noncomputable def peakLoop : List Frame → ℕ → ℝ → ℕ → ℝ × ℕ
  | [], _, peakHeight, peakIndex => (peakHeight, peakIndex)
  | f :: rest, i, peakHeight, peakIndex =>
    if peakHeight < avgHeight f then peakLoop rest (i + 1) (avgHeight f) i
    else peakLoop rest (i + 1) peakHeight peakIndex

/-- Qualification test of `findMidairPoint`'s second pass at index `i`:
every die above ground clearance `3.0` and average height above 75% of
the peak. -/
noncomputable def midairCond (frames : List Frame) (peakHeight : ℝ) (i : ℕ) : Prop :=
  (∀ state ∈ (frames.getD i default).diceStates, 3 < state.position.y) ∧
    peakHeight * 0.75 < avgHeight (frames.getD i default)

/-- Second pass of `findMidairPoint`: the first index before the peak
index satisfying `midairCond`. -/
noncomputable def midairScan (frames : List Frame) (peakHeight : ℝ) :
    ℕ → ℕ → Option ℕ
  | 0, _ => none
  | fuel + 1, i =>
    have : Decidable (midairCond frames peakHeight i) := Classical.propDecidable _
    if midairCond frames peakHeight i then some i
    else midairScan frames peakHeight fuel (i + 1)

/-- The mid-air index of the dice-game component (`findMidairPoint`):
the first pre-peak frame with all dice above ground and near-peak
average height, falling back to a quarter of the sequence length. -/
noncomputable def findMidairPoint (frames : List Frame) : ℕ :=
  let peak := peakLoop frames 0 0 0
  match midairScan frames peak.1 peak.2 0 with
  | some i => i
  | none => frames.length / 4

/-- Settle test of `findSettleIndex` for one frame: every die's linear
speed below the velocity settle threshold `2.0`. -/
noncomputable def allSlow (f : Frame) : Prop :=
  ∀ state ∈ f.diceStates,
    Real.sqrt (state.velocity.x ^ 2 + state.velocity.y ^ 2 + state.velocity.z ^ 2) < 2

/-- Backward scan of `findSettleIndex`: starting from the last frame,
the first index (from the end) whose frame passes `allSlow`, minus a
five-frame backward offset (clamped at zero by truncated subtraction). -/
noncomputable def settleScan (frames : List Frame) : ℕ → Option ℕ
  | 0 => none
  | i + 1 =>
    have : Decidable (allSlow (frames.getD i default)) := Classical.propDecidable _
    if allSlow (frames.getD i default) then some (i - 5)
    else settleScan frames i

/-- The settle index of the dice-game component (`findSettleIndex`),
falling back to two thirds of the sequence length when no frame
qualifies. -/
noncomputable def findSettleIndex (frames : List Frame) : ℕ :=
  match settleScan frames frames.length with
  | some i => i
  | none => frames.length * 2 / 3

/-- Map over a list together with the element's index, mirroring the
index-aware `Array.prototype.map` callbacks of the source. -/
def mapWithIdx (f : ℕ → α → β) : ℕ → List α → List β
  | _, [] => []
  | i, a :: as => f i a :: mapWithIdx f (i + 1) as

/-- Angular-velocity magnitude clamp of the physics-influenced frame
generator: speeds above `10.0` are rescaled onto the ceiling. -/
noncomputable def clampAngVel (v : Vec3) : Vec3 :=
  let angSpeed := Real.sqrt (v.x ^ 2 + v.y ^ 2 + v.z ^ 2)
  if 10 < angSpeed then vecScale (10 / angSpeed) v else v

/-- Per-die state update of one physics-influenced frame
(`createNaturalTransitionFrames` loop body): slerp toward the landing
orientation by the blend weight, force continued descent below the
mid-air height threshold late in the phase, add random horizontal
jitter, add the orienting torque scaled by `0.3 × blend`, and clamp the
angular speed.  `rv` is the pair of `Math.random()` samples of this die
and frame. -/
noncomputable def cntfDie (applied progress : ℝ) (rv : ℝ × ℝ) (targetRot : Quat)
    (diceState : DieState) : DieState :=
  let slerpedQuat := slerpQuaternions diceState.quaternion targetRot applied
  let v1 :=
    if 2 < diceState.position.y ∧ 0.3 < progress then
      ⟨diceState.velocity.x,
       min diceState.velocity.y (-2.5 * (1 - progress)),
       diceState.velocity.z⟩
    else diceState.velocity
  let v2 :=
    if 0.2 < progress then
      (⟨v1.x + (rv.1 - 0.5) * 0.15 * applied, v1.y,
        v1.z + (rv.2 - 0.5) * 0.15 * applied⟩ : Vec3)
    else v1
  let torque := calculateOrientingTorque diceState.quaternion targetRot (applied * 0.3)
  let adjustedAngVel : Vec3 :=
    ⟨diceState.angularVelocity.x + torque.x,
     diceState.angularVelocity.y + torque.y,
     diceState.angularVelocity.z + torque.z⟩
  ⟨diceState.position, slerpedQuat, v2, clampAngVel adjustedAngVel⟩

/-- One generated physics-influenced frame at index `i`: original frames
in range keep their own timestamp and are the modification base;
beyond the recorded range the previous generated frame (or the start
frame at `i = 0`) is modified and the timestamp is extrapolated in 16 ms
steps from the start frame. -/
noncomputable def cntfFrame (startFrame : Frame) (originalFrames : List Frame)
    (targets : List Quat) (strengthFactor : ℝ) (randVel : ℕ → ℕ → ℝ × ℝ)
    (totalFrames : ℕ) (i : ℕ) (prev : Frame) : Frame :=
  let frameToModify :=
    if i < originalFrames.length then originalFrames.getD i default
    else if 0 < i then prev else startFrame
  let progress := (i : ℝ) / (totalFrames : ℝ)
  let sigmoidProgress := 1 / (1 + Real.exp (-15 * (progress - 0.35)))
  let appliedStrength := sigmoidProgress * strengthFactor * 1.2
  { diceStates := mapWithIdx
      (fun idx state =>
        cntfDie appliedStrength progress (randVel i idx) (targets.getD idx default) state)
      0 frameToModify.diceStates
    timestamp :=
      if i < originalFrames.length then (originalFrames.getD i default).timestamp
      else startFrame.timestamp + (i : ℝ) * 16 }

/-- Generation loop of the physics-influenced phase, carrying the
previously generated frame for the extrapolated range. -/
noncomputable def cntfGo (startFrame : Frame) (originalFrames : List Frame)
    (targets : List Quat) (strengthFactor : ℝ) (randVel : ℕ → ℕ → ℝ × ℝ)
    (totalFrames : ℕ) : ℕ → ℕ → Frame → List Frame
  | 0, _, _ => []
  | fuel + 1, i, prev =>
    let f := cntfFrame startFrame originalFrames targets strengthFactor randVel totalFrames i prev
    f :: cntfGo startFrame originalFrames targets strengthFactor randVel totalFrames fuel (i + 1) f

/-- The soft-landing cushion frame appended at the end of the
physics-influenced phase: velocities damped to 40% (linear) and 20%
(angular), orientation slerped an extra 30% toward target, timestamp
16 ms after the last generated frame. -/
noncomputable def dampedFinalFrame (lastFrame : Frame) (targets : List Quat) : Frame :=
  { diceStates := mapWithIdx
      (fun idx diceState =>
        { position := diceState.position
          quaternion := slerpQuaternions diceState.quaternion (targets.getD idx default) 0.3
          velocity := vecScale 0.4 diceState.velocity
          angularVelocity := vecScale 0.2 diceState.angularVelocity })
      0 lastFrame.diceStates
    timestamp := lastFrame.timestamp + 16 }

/-- The physics-influenced frame generator
(`createNaturalTransitionFrames`): one generated frame per original
frame in the influence range (or a fixed budget of 40 frames when that
range is empty), plus the damped cushion frame.  `randY` samples the
landing-orientation jitter per die; `randVel` samples the velocity
jitter per frame and die. -/
noncomputable def createNaturalTransitionFrames (startFrame : Frame)
    (originalFrames : List Frame) (targetValues : List ℕ) (strengthFactor : ℝ)
    (randY : ℕ → ℝ) (randVel : ℕ → ℕ → ℝ × ℝ) : List Frame :=
  let targetLandingOrientations :=
    mapWithIdx (fun idx v => calculateLandingOrientation v (randY idx)) 0 targetValues
  let totalFrames := if 0 < originalFrames.length then originalFrames.length else 40
  let transitionFrames :=
    cntfGo startFrame originalFrames targetLandingOrientations strengthFactor randVel
      totalFrames totalFrames 0 startFrame
  match transitionFrames.getLast? with
  | some lastFrame => transitionFrames ++ [dampedFinalFrame lastFrame targetLandingOrientations]
  | none => transitionFrames

/-- One closing-transition frame at index `i` of `numFrames`:
orientation slerped from the start frame's orientation to the exact
target by `i / (numFrames - 1)`, velocities scaled by the square of
`1 - progress`, timestamp `startTime + i * 16`. -/
noncomputable def ctfFrame (startFrame : Frame) (targetRotations : List Quat)
    (numFrames : ℕ) (i : ℕ) : Frame :=
  let progress := (i : ℝ) / ((numFrames : ℝ) - 1)
  let velocityFactor := 1 - progress
  { diceStates := mapWithIdx
      (fun index diceState =>
        { position := diceState.position
          quaternion := slerpQuaternions diceState.quaternion
            (targetRotations.getD index default) progress
          velocity := vecScale (velocityFactor * velocityFactor) diceState.velocity
          angularVelocity := vecScale (velocityFactor * velocityFactor) diceState.angularVelocity })
      0 startFrame.diceStates
    timestamp := startFrame.timestamp + (i : ℝ) * 16 }

/-- The hard-zeroed final frame of the closing transition: positions and
orientations of the given frame, velocities zero, timestamp 16 ms
later. -/
def zeroVelFrame (finalFrame : Frame) : Frame :=
  { diceStates := finalFrame.diceStates.map
      (fun diceState =>
        { position := diceState.position
          quaternion := diceState.quaternion
          velocity := ⟨0, 0, 0⟩
          angularVelocity := ⟨0, 0, 0⟩ })
    timestamp := finalFrame.timestamp + 16 }

/-- The closing-transition generator (`createTransitionFrames`):
`numFrames` interpolated frames followed by a final frame with all
velocities hard-zeroed 16 ms later.  The source reads the last generated
frame unconditionally; the empty case (never reached, the only call
passes 15) is modelled as the empty list. -/
noncomputable def createTransitionFrames (startFrame : Frame) (targetValues : List ℕ)
    (numFrames : ℕ) : List Frame :=
  let targetRotations := targetValues.map calculateOrientationForFaceValue
  let transitionFrames :=
    (List.range numFrames).map (ctfFrame startFrame targetRotations numFrames)
  match transitionFrames.getLast? with
  | some finalFrame => transitionFrames ++ [zeroVelFrame finalFrame]
  | none => transitionFrames

/-- The Rigging Engine's main entry point (`rigRecording`).
`isRiggingEnabled` and `desiredResults` are the fresh reads of the
rigging preset state at the moment of rigging; pass-through applies when
rigging is off, the desired-results list is empty, or the recording has
fewer than 10 frames.  Otherwise the recording is segmented at the
mid-air and settle indices and rebuilt as natural frames ++
physics-influenced frames ++ closing-transition frames, with
`finalResults` overwritten by the desired results. -/
noncomputable def rigRecording (isRiggingEnabled : Bool) (desiredResults : List ℕ)
    (randY : ℕ → ℝ) (randVel : ℕ → ℕ → ℝ × ℝ)
    (recording : ShadowRecording) : ShadowRecording :=
  if isRiggingEnabled = false then recording
  else if desiredResults.length = 0 then recording
  else if recording.frames.length < 10 then recording
  else
    let midAirIndex := findMidairPoint recording.frames
    let settleIndex := findSettleIndex recording.frames
    let naturalFrames := recording.frames.take midAirIndex
    let framesToInfluence :=
      (recording.frames.drop midAirIndex).take
        (min settleIndex recording.frames.length - midAirIndex)
    let physicsInfluencedFrames :=
      createNaturalTransitionFrames (recording.frames.getD midAirIndex default)
        framesToInfluence desiredResults 0.9 randY randVel
    let remainingFrames :=
      if settleIndex < recording.frames.length then
        createTransitionFrames (physicsInfluencedFrames.getLastD default)
          desiredResults 15
      else []
    { frames := naturalFrames ++ physicsInfluencedFrames ++ remainingFrames
      finalResults := desiredResults
      isComplete := true
      isRigged := some true
      desiredResults := some desiredResults }

/-- One step of the Frame Recorder (`recordShadowFrame`): append a frame
whose synthetic timestamp is `frameIndex × (1000/60) × 6` (the shadow
speed multiplier), sampling the given dice states. -/
noncomputable def recordShadowFrame (frames : List Frame) (diceStates : List DieState) : List Frame :=
  frames ++ [{ timestamp := (frames.length : ℝ) * (1000 / 60) * 6, diceStates := diceStates }]

/-- A full recorder run over a sequence of sampled roster states,
starting from the cleared buffer of `startRecording`. -/
noncomputable def recorderFrames (captures : List (List DieState)) : List Frame :=
  captures.foldl recordShadowFrame []

/-- The six face normals of the face-value readout, in the source's
iteration order. -/
def faceNormals : List Vec3 :=
  [⟨1, 0, 0⟩, ⟨-1, 0, 0⟩, ⟨0, 1, 0⟩, ⟨0, -1, 0⟩, ⟨0, 0, 1⟩, ⟨0, 0, -1⟩]

/-- The face values paired with `faceNormals` index by index. -/
def faceValues : List ℕ := [1, 6, 2, 5, 3, 4]

/-- The argmax loop of `getShadowDiceValue`: track the largest world-up
alignment seen so far, starting from `-Infinity` (modelled by the bottom
element of `WithBot ℝ`) and face index `0`. -/
noncomputable def diceValueLoop (rotation : Quat) :
    List Vec3 → ℕ → WithBot ℝ → ℕ → ℕ
  | [], _, _, topFaceIndex => topFaceIndex
  | normal :: rest, index, maxAlignment, topFaceIndex =>
    let alignment := dotV (applyQuatVec rotation normal) ⟨0, 1, 0⟩
    if maxAlignment < (alignment : WithBot ℝ) then
      diceValueLoop rotation rest (index + 1) (alignment : WithBot ℝ) index
    else diceValueLoop rotation rest (index + 1) maxAlignment topFaceIndex

/-- The face-value readout (`getShadowDiceValue`): the face value whose
rotated normal points most toward world-up. -/
noncomputable def getShadowDiceValue (rotation : Quat) : ℕ :=
  faceValues.getD (diceValueLoop rotation faceNormals 0 ⊥ 0) 0

/-- The shadow-throw entry point (`executeShadowThrow`), modelled at the
promise level: the promise only ever resolves (`Except.ok`), immediately
with the degenerate recording `{frames: [], finalResults: [1,1,1],
isComplete: false}` when the shadow world or the shadow die roster is
missing, and otherwise (after the simulation completes) with the
recording produced by the completed shadow roll, passed here as the
parameter `completedOutcome`. -/
def executeShadowThrow (shadowWorldReady : Bool) (shadowCubeCount : ℕ)
    (completedOutcome : ShadowRecording) : Except String ShadowRecording :=
  if shadowWorldReady = false ∨ shadowCubeCount = 0 then
    Except.ok { frames := [], finalResults := [1, 1, 1], isComplete := false }
  else Except.ok completedOutcome

/-- Body type of a visible physics body: dynamic while animating, static
once frozen. -/
inductive BodyType where
  | dynamic : BodyType
  | static : BodyType
deriving DecidableEq

/-- The slice of a visible body's state that the Playback Driver reads
and writes. -/
structure BodyState where
  btype : BodyType
  position : Vec3
  quaternion : Quat
  velocity : Vec3
  angularVelocity : Vec3
  awake : Bool

/-- The playback bookkeeping of the playback hook (`playbackStateRef`). -/
structure PlaybackCore where
  isPlayingBack : Bool
  recording : Option ShadowRecording
  startTime : ℝ
  isRigged : Bool
  riggedResults : List ℕ

/-- The whole mutable state the Playback Driver touches: the visible
bodies, the playback bookkeeping, the reported roll results and the
throw-in-progress flag. -/
structure PlaybackSim where
  cubes : List BodyState
  playback : PlaybackCore
  rollResults : Option (List ℕ)
  isThrowing : Bool

/-- Linear interpolation of the per-die kinematic states between two
frames (`interpolateFrame`), with the external math library's slerp
(`extSlerp`, a parameter: the library is outside this repository) for
orientations.  Frames of one recording always carry one state per die,
so the index-aligned traversal is a zip. -/
def interpolateStates (extSlerp : Quat → Quat → ℝ → Quat) (t : ℝ) :
    List DieState → List DieState → List DieState
  | [], _ => []
  | _ :: _, [] => []
  | s1 :: r1, s2 :: r2 =>
    { position := ⟨s1.position.x + (s2.position.x - s1.position.x) * t,
                   s1.position.y + (s2.position.y - s1.position.y) * t,
                   s1.position.z + (s2.position.z - s1.position.z) * t⟩
      quaternion := extSlerp s1.quaternion s2.quaternion t
      velocity := ⟨s1.velocity.x + (s2.velocity.x - s1.velocity.x) * t,
                   s1.velocity.y + (s2.velocity.y - s1.velocity.y) * t,
                   s1.velocity.z + (s2.velocity.z - s1.velocity.z) * t⟩
      angularVelocity :=
        ⟨s1.angularVelocity.x + (s2.angularVelocity.x - s1.angularVelocity.x) * t,
         s1.angularVelocity.y + (s2.angularVelocity.y - s1.angularVelocity.y) * t,
         s1.angularVelocity.z + (s2.angularVelocity.z - s1.angularVelocity.z) * t⟩ } ::
      interpolateStates extSlerp t r1 r2

/-- Frame-level interpolation (`interpolateFrame`). -/
def interpolateFrame (extSlerp : Quat → Quat → ℝ → Quat) (frame1 frame2 : Frame)
    (t : ℝ) : Frame :=
  { timestamp := frame1.timestamp + (frame2.timestamp - frame1.timestamp) * t
    diceStates := interpolateStates extSlerp t frame1.diceStates frame2.diceStates }

/-- Writing one frame onto the visible bodies (`applyRecordedFrame`):
bodies with an index-aligned die state take its kinematics and are woken
up; extra bodies are untouched. -/
def applyStates : List BodyState → List DieState → List BodyState
  | [], _ => []
  | cubes, [] => cubes
  | cube :: cubes, state :: states =>
    { cube with
      position := state.position
      quaternion := state.quaternion
      velocity := state.velocity
      angularVelocity := state.angularVelocity
      awake := true } :: applyStates cubes states

/-- Application of a frame to the whole simulation state. -/
def applyRecordedFrame (s : PlaybackSim) (frame : Frame) : PlaybackSim :=
  { s with cubes := applyStates s.cubes frame.diceStates }

/-- The finalization performed when playback completes: every visible
body becomes static with hard-zeroed velocities, the results are
reported, and the playback bookkeeping is cleared (the source clears it
in a 50 ms timeout once the animation loop has already stopped; it is
modelled synchronously here). -/
def finalizePlayback (s : PlaybackSim) (finalResults : List ℕ) : PlaybackSim :=
  { cubes := s.cubes.map (fun cube =>
      { cube with
        btype := BodyType.static
        velocity := ⟨0, 0, 0⟩
        angularVelocity := ⟨0, 0, 0⟩ })
    playback := { isPlayingBack := false, recording := none,
                  startTime := s.playback.startTime, isRigged := false,
                  riggedResults := [] }
    rollResults := some finalResults
    isThrowing := false }

/-- Bracketing-pair search of `updatePlayback`: the first index `i` with
`frames[i].timestamp ≤ elapsed < frames[i+1].timestamp`. -/
noncomputable def findBracket (frames : List Frame) (elapsed : ℝ) : Option ℕ :=
  (List.range (frames.length - 1)).find? (fun i =>
    have : Decidable ((frames.getD i default).timestamp ≤ elapsed ∧
        elapsed < (frames.getD (i + 1) default).timestamp) := Classical.propDecidable _
    decide ((frames.getD i default).timestamp ≤ elapsed ∧
      elapsed < (frames.getD (i + 1) default).timestamp))

/-- One tick of the Playback Driver (`updatePlayback`) at wall-clock
time `now`.  Returns the updated state, the finalized results when this
tick finalizes, and whether the driver reschedules itself for another
animation frame. -/
noncomputable def updatePlayback (extSlerp : Quat → Quat → ℝ → Quat)
    (s : PlaybackSim) (now : ℝ) : PlaybackSim × Option (List ℕ) × Bool :=
  match s.playback.recording with
  | none => (s, none, false)
  | some recording =>
    if s.playback.isPlayingBack = false ∨ recording.frames.length = 0 then
      (s, none, false)
    else
      let elapsedTime := now - s.playback.startTime
      match findBracket recording.frames elapsedTime with
      | some i =>
        let frame1 := recording.frames.getD i default
        let frame2 := recording.frames.getD (i + 1) default
        let timeDiffBetweenFrames := frame2.timestamp - frame1.timestamp
        let t := if 0 < timeDiffBetweenFrames then
            (elapsedTime - frame1.timestamp) / timeDiffBetweenFrames else 0
        (applyRecordedFrame s
            (interpolateFrame extSlerp frame1 frame2 (max 0 (min 1 t))), none, true)
      | none =>
        let lastFrame := recording.frames.getLastD default
        if lastFrame.timestamp ≤ elapsedTime then
          let s1 := applyRecordedFrame s lastFrame
          if lastFrame.timestamp + 100 ≤ elapsedTime then
            let finalResults :=
              if s.playback.isRigged = true ∧ s.playback.riggedResults.length ≠ 0 then
                s.playback.riggedResults
              else recording.finalResults
            (finalizePlayback s1 finalResults, some finalResults, false)
          else (s1, none, true)
        else (applyRecordedFrame s (recording.frames.getD 0 default), none, true)

/-- The self-rescheduling animation-frame loop around `updatePlayback`:
each entry of `ticks` is the wall-clock time of one animation frame; the
loop stops when the driver does not reschedule (or when the tick list is
exhausted), collecting every reported result list along the way. -/
noncomputable def runPlayback (extSlerp : Quat → Quat → ℝ → Quat) :
    PlaybackSim → List ℝ → PlaybackSim × List (List ℕ)
  | s, [] => (s, [])
  | s, now :: ticks =>
    let step := updatePlayback extSlerp s now
    if step.2.2 = true then
      let rest := runPlayback extSlerp step.1 ticks
      (rest.1, step.2.1.toList ++ rest.2)
    else (step.1, step.2.1.toList)

/-- Initialization of the playback bookkeeping when a shadow recording
arrives (`executeThrow`): `isRigged` falls back to `false` when absent,
and `riggedResults` takes the recording's `desiredResults` when it is
rigged and that field is present, else its natural `finalResults`. -/
def initPlayback (recording : ShadowRecording) (now : ℝ) : PlaybackCore :=
  { isPlayingBack := true
    recording := some recording
    startTime := now
    isRigged := recording.isRigged.getD false
    riggedResults :=
      if recording.isRigged.getD false = true ∧ recording.desiredResults.isSome then
        recording.desiredResults.getD []
      else recording.finalResults }

/-- An all-zero resting die state, used as the concrete input of several
witnesses. -/
def zeroState : DieState := ⟨⟨0, 0, 0⟩, ⟨0, 0, 0, 1⟩, ⟨0, 0, 0⟩, ⟨0, 0, 0⟩⟩

/-- A single-die frame at rest. -/
def slowF : Frame := ⟨0, [zeroState]⟩

/-- A die state moving at the settle threshold speed (2 units/s along
x), so it does not count as settled. -/
def fastState : DieState := ⟨⟨0, 0, 0⟩, ⟨0, 0, 0, 1⟩, ⟨2, 0, 0⟩, ⟨0, 0, 0⟩⟩

/-- A single-die frame moving at the settle threshold speed. -/
def fastF : Frame := ⟨0, [fastState]⟩

/-- A ten-frame single-die natural recording whose states are all at
rest, used as a concrete witness input. -/
def tenFrameRec : ShadowRecording :=
  { frames := List.replicate 10 slowF
    finalResults := [5]
    isComplete := true }

/-- C1.  For every natural Recording with at least 10 frames and every
desired-results list whose length equals the Recording's die count with
each value in 1..6, the Recording returned by the Rigging Engine
(`rigRecording`, with rigging enabled) has `finalResults` exactly equal
to the desired-results list. -/
theorem rig_final_results_eq_desired (randY : ℕ → ℝ) (randVel : ℕ → ℕ → ℝ × ℝ)
    (recording : ShadowRecording) (desiredResults : List ℕ)
    (hlen : desiredResults.length = recording.dieCount)
    (hvals : ∀ v ∈ desiredResults, 1 ≤ v ∧ v ≤ 6)
    (hne : desiredResults ≠ [])
    (hframes : 10 ≤ recording.frames.length) :
    (rigRecording true desiredResults randY randVel recording).finalResults =
      desiredResults := by
  unfold rigRecording
  rw [if_neg (by simp), if_neg (by simpa using hne), if_neg (by omega)]

/-- Witness for C1 at a concrete ten-frame one-die recording rigged to
show a 2. -/
theorem rig_final_results_eq_desired_witness :
    (rigRecording true [2] (fun _ => 1 / 2) (fun _ _ => (1 / 2, 1 / 2))
        tenFrameRec).finalResults = [2] :=
  rig_final_results_eq_desired _ _ tenFrameRec [2]
    (by simp [tenFrameRec, ShadowRecording.dieCount]) (by decide) (by decide)
    (by simp [tenFrameRec])

/-- C3.  `rigRecording` is the identity on its input Recording whenever
rigging is toggled off, the desired-results list is empty, or the input
has fewer than 10 frames: frames, finalResults and the rigging flags are
all returned unchanged. -/
theorem rig_passthrough (isRiggingEnabled : Bool) (desiredResults : List ℕ)
    (randY : ℕ → ℝ) (randVel : ℕ → ℕ → ℝ × ℝ) (recording : ShadowRecording)
    (h : isRiggingEnabled = false ∨ desiredResults = [] ∨
      recording.frames.length < 10) :
    rigRecording isRiggingEnabled desiredResults randY randVel recording =
      recording := by
  unfold rigRecording
  rcases h with h | h | h
  · simp [h]
  · simp [h]
  · simp [h]

/-- Witness for C3: rigging toggled off on the concrete ten-frame
recording. -/
theorem rig_passthrough_witness :
    rigRecording false [6, 6, 6] (fun _ => 1 / 2) (fun _ _ => (1 / 2, 1 / 2))
      tenFrameRec = tenFrameRec :=
  rig_passthrough false [6, 6, 6] _ _ tenFrameRec (Or.inl rfl)

/-- C5.  A shadow-throw request made before the shadow world or shadow
die roster has been initialized resolves (never rejects) with a
degenerate Recording: empty frames and one safe default face value for
each of the three dice of the roster. -/
theorem shadow_throw_uninitialized (shadowWorldReady : Bool) (shadowCubeCount : ℕ)
    (completedOutcome : ShadowRecording)
    (h : shadowWorldReady = false ∨ shadowCubeCount = 0) :
    ∃ rec : ShadowRecording,
      executeShadowThrow shadowWorldReady shadowCubeCount completedOutcome =
        Except.ok rec ∧
      rec.frames = [] ∧ rec.finalResults.length = 3 ∧
      ∀ v ∈ rec.finalResults, 1 ≤ v ∧ v ≤ 6 := by
  refine ⟨{ frames := [], finalResults := [1, 1, 1], isComplete := false }, ?_, rfl,
    rfl, by decide⟩
  unfold executeShadowThrow
  rw [if_pos h]

/-- Witness for C5: a request with no shadow world. -/
theorem shadow_throw_uninitialized_witness :
    ∃ rec : ShadowRecording,
      executeShadowThrow false 3 tenFrameRec = Except.ok rec ∧
      rec.frames = [] ∧ rec.finalResults.length = 3 ∧
      ∀ v ∈ rec.finalResults, 1 ≤ v ∧ v ≤ 6 :=
  shadow_throw_uninitialized false 3 tenFrameRec (Or.inl rfl)

/-- C7.  For unit quaternions, slerp returns the first input at `t = 0`,
the second at `t = 1`, and is constant when interpolating a quaternion
with itself, exactly (the floating tolerance of the spec is not needed
over the reals). -/
theorem slerp_boundary (a b : Quat) (ha : unitQ a) (hb : unitQ b) :
    slerpQuaternions a b 0 = a ∧ slerpQuaternions a b 1 = b ∧
      ∀ t : ℝ, 0 ≤ t → t ≤ 1 → slerpQuaternions a a t = a := by
  refine ⟨by simp [slerpQuaternions], by norm_num [slerpQuaternions], ?_⟩
  intro t _ _
  by_cases ht0 : t = 0
  · simp [slerpQuaternions, ht0]
  by_cases ht1 : t = 1
  · simp [slerpQuaternions, ht0, ht1]
  have hcos : a.x * a.x + a.y * a.y + a.z * a.z + a.w * a.w = 1 := by
    have h1 : normSqQ a = 1 := ha
    unfold normSqQ at h1
    nlinarith [h1]
  unfold slerpQuaternions
  rw [if_neg ht0, if_neg ht1]
  simp only [hcos]
  rw [if_pos (by norm_num)]

/-- Witness for C7 at two concrete unit quaternions. -/
theorem slerp_boundary_witness :
    slerpQuaternions ⟨0, 0, 0, 1⟩ ⟨1, 0, 0, 0⟩ 0 = ⟨0, 0, 0, 1⟩ ∧
    slerpQuaternions ⟨0, 0, 0, 1⟩ ⟨1, 0, 0, 0⟩ 1 = ⟨1, 0, 0, 0⟩ ∧
    ∀ t : ℝ, 0 ≤ t → t ≤ 1 →
      slerpQuaternions ⟨0, 0, 0, 1⟩ ⟨0, 0, 0, 1⟩ t = ⟨0, 0, 0, 1⟩ :=
  slerp_boundary ⟨0, 0, 0, 1⟩ ⟨1, 0, 0, 0⟩ (by norm_num [unitQ, normSqQ])
    (by norm_num [unitQ, normSqQ])

/-- The argmax loop of the face-value readout only ever selects an index
of a scanned normal, so it stays below any bound covering the remaining
scan range. -/
theorem diceValueLoop_lt_bound (rotation : Quat) :
    ∀ (l : List Vec3) (i : ℕ) (m : WithBot ℝ) (top N : ℕ),
      top < N → i + l.length ≤ N → diceValueLoop rotation l i m top < N := by
  intro l
  induction l with
  | nil => intro i m top N htop _; simpa [diceValueLoop] using htop
  | cons n rest ih =>
    intro i m top N htop hlen
    simp only [List.length_cons] at hlen
    simp only [diceValueLoop]
    split
    · exact ih (i + 1) _ i N (by omega) (by omega)
    · exact ih (i + 1) _ top N htop (by omega)

/-- C10.  The face-value readout `getShadowDiceValue` is total and
returns a value in 1..6 for every orientation quaternion, including
non-unit and degenerate ones: the argmax always selects a valid index
into the six-entry face-value table. -/
theorem face_value_total (rotation : Quat) :
    1 ≤ getShadowDiceValue rotation ∧ getShadowDiceValue rotation ≤ 6 := by
  have h : diceValueLoop rotation faceNormals 0 ⊥ 0 < 6 :=
    diceValueLoop_lt_bound rotation faceNormals 0 ⊥ 0 6 (by norm_num)
      (by simp [faceNormals])
  unfold getShadowDiceValue
  set k := diceValueLoop rotation faceNormals 0 ⊥ 0 with hk
  interval_cases k <;> simp [faceValues]

/-- The identity quaternion as a concrete input. -/
def qId : Quat := ⟨0, 0, 0, 1⟩

/-- A unit quaternion with negative dot product against the identity. -/
noncomputable def qNegDot : Quat := ⟨4 / 5, 0, 0, -(3 / 5)⟩

/-- Evaluation of slerp in the aligned branch (absolute dot product at
least one): the first input is returned. -/
theorem slerp_eq_far (qa qb : Quat) (t c : ℝ) (hc : dotQ qa qb = c)
    (ht0 : t ≠ 0) (ht1 : t ≠ 1) (h : 1 ≤ |c|) :
    slerpQuaternions qa qb t = ⟨qa.x, qa.y, qa.z, qa.w⟩ := by
  unfold dotQ at hc
  unfold slerpQuaternions
  rw [if_neg ht0, if_neg ht1]
  simp only [hc]
  rw [if_pos h]

/-- Evaluation of slerp in the tiny-sine branch: the midpoint average is
returned. -/
theorem slerp_eq_mid (qa qb : Quat) (t c : ℝ) (hc : dotQ qa qb = c)
    (ht0 : t ≠ 0) (ht1 : t ≠ 1) (h1 : ¬ 1 ≤ |c|)
    (h2 : |Real.sqrt (1 - c * c)| < 0.001) :
    slerpQuaternions qa qb t =
      ⟨qa.x * 0.5 + qb.x * 0.5, qa.y * 0.5 + qb.y * 0.5,
       qa.z * 0.5 + qb.z * 0.5, qa.w * 0.5 + qb.w * 0.5⟩ := by
  unfold dotQ at hc
  unfold slerpQuaternions
  rw [if_neg ht0, if_neg ht1]
  simp only [hc]
  rw [if_neg h1, if_pos h2]

/-- Evaluation of slerp in the generic two-ratio branch. -/
theorem slerp_eq_generic (qa qb : Quat) (t c : ℝ) (hc : dotQ qa qb = c)
    (ht0 : t ≠ 0) (ht1 : t ≠ 1) (h1 : ¬ 1 ≤ |c|)
    (h2 : ¬ |Real.sqrt (1 - c * c)| < 0.001) :
    slerpQuaternions qa qb t =
      ⟨qa.x * (Real.sin ((1 - t) * Real.arccos c) / Real.sqrt (1 - c * c)) +
         qb.x * (Real.sin (t * Real.arccos c) / Real.sqrt (1 - c * c)),
       qa.y * (Real.sin ((1 - t) * Real.arccos c) / Real.sqrt (1 - c * c)) +
         qb.y * (Real.sin (t * Real.arccos c) / Real.sqrt (1 - c * c)),
       qa.z * (Real.sin ((1 - t) * Real.arccos c) / Real.sqrt (1 - c * c)) +
         qb.z * (Real.sin (t * Real.arccos c) / Real.sqrt (1 - c * c)),
       qa.w * (Real.sin ((1 - t) * Real.arccos c) / Real.sqrt (1 - c * c)) +
         qb.w * (Real.sin (t * Real.arccos c) / Real.sqrt (1 - c * c))⟩ := by
  unfold dotQ at hc
  unfold slerpQuaternions
  rw [if_neg ht0, if_neg ht1]
  simp only [hc]
  rw [if_neg h1, if_neg h2]

/-- The sine of half the arccos of an interior cosine value is positive. -/
theorem sin_half_arccos_pos {c : ℝ} (h1 : -1 < c) (h2 : c < 1) :
    0 < Real.sin ((1 / 2) * Real.arccos c) := by
  apply Real.sin_pos_of_pos_of_lt_pi
  · have := Real.arccos_pos.2 h2
    linarith
  · have := Real.arccos_le_pi c
    have := Real.pi_pos
    linarith

/-- Square roots of the two concrete discriminants used by the C6
counterexample. -/
theorem sqrt_sixteen_twentyfifths : Real.sqrt (16 / 25) = 4 / 5 := by
  rw [show (16 / 25 : ℝ) = (4 / 5) ^ 2 by norm_num]
  exact Real.sqrt_sq (by norm_num)

/-- Counterexample for C6: at `a` the identity, `b = (4/5, 0, 0, -3/5)`
(unit, dot product `-3/5 < 0`) and `t = 1/2`, slerp of `a, b` and slerp
of `a, -b` differ — the implementation applies no double-cover
correction. -/
theorem slerp_shortarc_cex :
    unitQ qId ∧ unitQ qNegDot ∧ dotQ qId qNegDot < 0 ∧
      ((0 : ℝ) ≤ 1 / 2 ∧ (1 / 2 : ℝ) ≤ 1) ∧
      slerpQuaternions qId qNegDot (1 / 2) ≠
        slerpQuaternions qId (negQ qNegDot) (1 / 2) := by
  have habs1 : ¬ (1 : ℝ) ≤ |(-(3 / 5) : ℝ)| := by
    rw [not_le, abs_lt]; constructor <;> norm_num
  have habs2 : ¬ (1 : ℝ) ≤ |(3 / 5 : ℝ)| := by
    rw [not_le, abs_lt]; constructor <;> norm_num
  have hsq1 : Real.sqrt (1 - (-(3 / 5) : ℝ) * (-(3 / 5))) = 4 / 5 := by
    rw [show (1 - (-(3 / 5) : ℝ) * (-(3 / 5))) = 16 / 25 by norm_num,
      sqrt_sixteen_twentyfifths]
  have hsq2 : Real.sqrt (1 - (3 / 5 : ℝ) * (3 / 5)) = 4 / 5 := by
    rw [show (1 - (3 / 5 : ℝ) * (3 / 5)) = 16 / 25 by norm_num,
      sqrt_sixteen_twentyfifths]
  have hs1 : ¬ |Real.sqrt (1 - (-(3 / 5) : ℝ) * (-(3 / 5)))| < 0.001 := by
    rw [hsq1, not_lt, abs_of_pos (show (0 : ℝ) < 4 / 5 by norm_num)]; norm_num
  have hs2 : ¬ |Real.sqrt (1 - (3 / 5 : ℝ) * (3 / 5))| < 0.001 := by
    rw [hsq2, not_lt, abs_of_pos (show (0 : ℝ) < 4 / 5 by norm_num)]; norm_num
  refine ⟨by norm_num [unitQ, normSqQ, qId], by norm_num [unitQ, normSqQ, qNegDot],
    by norm_num [dotQ, qId, qNegDot], by norm_num, ?_⟩
  intro heq
  have hxeq := congrArg Quat.x heq
  have hL : (slerpQuaternions qId qNegDot (1 / 2)).x =
      Real.sin ((1 / 2) * Real.arccos (-(3 / 5))) := by
    rw [slerp_eq_generic qId qNegDot (1 / 2) (-(3 / 5))
      (by norm_num [dotQ, qId, qNegDot]) (by norm_num) (by norm_num) habs1 hs1]
    rw [hsq1]
    show (qId.x * _ + qNegDot.x * _ : ℝ) = _
    rw [show qId.x = 0 from rfl, show qNegDot.x = 4 / 5 from rfl]
    ring
  have hR : (slerpQuaternions qId (negQ qNegDot) (1 / 2)).x =
      -Real.sin ((1 / 2) * Real.arccos (3 / 5)) := by
    rw [slerp_eq_generic qId (negQ qNegDot) (1 / 2) (3 / 5)
      (by norm_num [dotQ, qId, qNegDot, negQ]) (by norm_num) (by norm_num)
      habs2 hs2]
    rw [hsq2]
    show (qId.x * _ + (negQ qNegDot).x * _ : ℝ) = _
    rw [show qId.x = 0 from rfl, show (negQ qNegDot).x = -(4 / 5) by
      norm_num [negQ, qNegDot]]
    ring
  rw [hL, hR] at hxeq
  have hpos1 : 0 < Real.sin ((1 / 2) * Real.arccos (-(3 / 5))) :=
    sin_half_arccos_pos (by norm_num) (by norm_num)
  have hpos2 : 0 < Real.sin ((1 / 2) * Real.arccos (3 / 5)) :=
    sin_half_arccos_pos (by norm_num) (by norm_num)
  linarith

/-- C6 amended.  The implementation applies no shorter-arc (double
cover) correction: `slerp(a, b, t)` need not equal `slerp(a, -b, t)`
when the dot product is negative (see the counterexample).  What does
hold for all inputs is equivariance under joint negation:
`slerp(-a, -b, t) = -slerp(a, b, t)`. -/
theorem slerp_joint_negation (a b : Quat) (t : ℝ) :
    slerpQuaternions (negQ a) (negQ b) t = negQ (slerpQuaternions a b t) := by
  by_cases ht0 : t = 0
  · simp [slerpQuaternions, negQ, ht0]
  by_cases ht1 : t = 1
  · simp [slerpQuaternions, negQ, ht0, ht1]
  have hcos : dotQ (negQ a) (negQ b) = dotQ a b := by
    simp only [dotQ, negQ]; ring
  by_cases h1 : (1 : ℝ) ≤ |dotQ a b|
  · rw [slerp_eq_far (negQ a) (negQ b) t (dotQ a b) hcos ht0 ht1 h1,
      slerp_eq_far a b t (dotQ a b) rfl ht0 ht1 h1]
  by_cases h2 : |Real.sqrt (1 - dotQ a b * dotQ a b)| < 0.001
  · rw [slerp_eq_mid (negQ a) (negQ b) t (dotQ a b) hcos ht0 ht1 h1 h2,
      slerp_eq_mid a b t (dotQ a b) rfl ht0 ht1 h1 h2]
    exact Quat.ext (by simp only [negQ]; try ring) (by simp only [negQ]; try ring)
      (by simp only [negQ]; try ring) (by simp only [negQ]; try ring)
  · rw [slerp_eq_generic (negQ a) (negQ b) t (dotQ a b) hcos ht0 ht1 h1 h2,
      slerp_eq_generic a b t (dotQ a b) rfl ht0 ht1 h1 h2]
    exact Quat.ext (by simp only [negQ]; try ring) (by simp only [negQ]; try ring)
      (by simp only [negQ]; try ring) (by simp only [negQ]; try ring)

/-- The spec's description of the delta rotation angle: twice the arccos
of the `w` component of `target * current⁻¹`. -/
noncomputable def specDeltaAngle (current target : Quat) : ℝ :=
  2 * Real.arccos (quatMul target (quatConj current)).w

/-- The spec's description of the delta rotation axis: the normalized
imaginary part of `target * current⁻¹`. -/
noncomputable def specDeltaAxis (current target : Quat) : Vec3 :=
  vecNormalize ⟨(quatMul target (quatConj current)).x,
    (quatMul target (quatConj current)).y, (quatMul target (quatConj current)).z⟩

/-- Magnitude clamping of a vector to a ceiling, as the spec's words
describe for the orienting torque. -/
noncomputable def clampMag (v : Vec3) (ceiling : ℝ) : Vec3 :=
  if ceiling < vecNorm v then vecScale (ceiling / vecNorm v) v else v

/-- Spec-side definition of the orienting torque, following the spec's
words for comparison with the implementation: the axis-angle delta
scaled by `angle * strength`, with the magnitude clamped to a fixed
ceiling. -/
noncomputable def specOrientingTorque (current target : Quat)
    (strength ceiling : ℝ) : Vec3 :=
  clampMag (vecScale (specDeltaAngle current target * strength)
    (specDeltaAxis current target)) ceiling

/-- The 180-degree rotation about the x axis, as a concrete input. -/
def qX180 : Quat := ⟨1, 0, 0, 0⟩

/-- The norm of a scaled vector. -/
theorem vecNorm_scale (c : ℝ) (v : Vec3) :
    vecNorm (vecScale c v) = |c| * vecNorm v := by
  unfold vecNorm vecScale
  rw [show (c * v.x) ^ 2 + (c * v.y) ^ 2 + (c * v.z) ^ 2 =
    c ^ 2 * (v.x ^ 2 + v.y ^ 2 + v.z ^ 2) by ring,
    Real.sqrt_mul (sq_nonneg c), Real.sqrt_sq_eq_abs]

/-- The squared norm of a Hamilton product is the product of the squared
norms (the four-square identity). -/
theorem normSqQ_mul (a b : Quat) :
    normSqQ (quatMul a b) = normSqQ a * normSqQ b := by
  unfold normSqQ quatMul; ring

/-- Conjugation preserves the squared norm. -/
theorem normSqQ_conj (q : Quat) : normSqQ (quatConj q) = normSqQ q := by
  unfold normSqQ quatConj; ring

/-- Concrete evaluation of the implementation's orienting torque at the
identity orientation, a 180° x-rotation target and strength one. -/
theorem torque_cex_eval :
    calculateOrientingTorque qId qX180 1 = ⟨Real.pi * 1.5, 0, 0⟩ := by
  have hdiff : quatMul qX180 (quatConj qId) = ⟨1, 0, 0, 0⟩ := by
    apply Quat.ext <;> norm_num [quatMul, quatConj, qId, qX180]
  simp only [calculateOrientingTorque]
  rw [hdiff]
  have h1 : |((⟨1, 0, 0, 0⟩ : Quat)).w| < 0.9999 := by norm_num
  rw [if_pos h1]
  have hs : Real.sqrt (1 - ((⟨1, 0, 0, 0⟩ : Quat)).w * ((⟨1, 0, 0, 0⟩ : Quat)).w) = 1 := by
    norm_num [Real.sqrt_one]
  rw [hs, if_pos (by norm_num : (0.0001 : ℝ) < 1)]
  have haxis : vecNormalize ⟨((⟨1, 0, 0, 0⟩ : Quat)).x / 1,
      ((⟨1, 0, 0, 0⟩ : Quat)).y / 1, ((⟨1, 0, 0, 0⟩ : Quat)).z / 1⟩ = ⟨1, 0, 0⟩ := by
    apply Vec3.ext <;> norm_num [vecNormalize, vecNorm, Real.sqrt_one]
  rw [haxis]
  apply Vec3.ext <;> norm_num [vecScale, Real.arccos_zero] <;> ring

/-- Counterexample for C9: no fixed clamping ceiling can reconcile the
implementation with the spec's `angle × strength` scaling — at the
identity-to-x-180° input with strength one the implementation's output
has magnitude `1.5π` while the spec's description (scaled by
`angle × strength = π`, then clamped) cannot exceed `π` in the
x component. -/
theorem orienting_torque_cex :
    ¬ ∃ ceiling : ℝ, ∀ (current target : Quat) (strength : ℝ),
        calculateOrientingTorque current target strength =
          specOrientingTorque current target strength ceiling := by
  rintro ⟨C, hC⟩
  have h := congrArg Vec3.x (hC qId qX180 1)
  rw [torque_cex_eval] at h
  have hdiff : quatMul qX180 (quatConj qId) = ⟨1, 0, 0, 0⟩ := by
    apply Quat.ext <;> norm_num [quatMul, quatConj, qId, qX180]
  have hangle : specDeltaAngle qId qX180 = Real.pi := by
    unfold specDeltaAngle
    rw [hdiff]
    norm_num [Real.arccos_zero]
    ring
  have haxis : specDeltaAxis qId qX180 = ⟨1, 0, 0⟩ := by
    unfold specDeltaAxis
    rw [hdiff]
    apply Vec3.ext <;> norm_num [vecNormalize, vecNorm, Real.sqrt_one]
  have hπ := Real.pi_pos
  have hspec : specOrientingTorque qId qX180 1 C = clampMag ⟨Real.pi, 0, 0⟩ C := by
    unfold specOrientingTorque
    rw [hangle, haxis]
    congr 1
    apply Vec3.ext <;> norm_num [vecScale]
  rw [hspec] at h
  have hnorm : vecNorm ⟨Real.pi, 0, 0⟩ = Real.pi := by
    unfold vecNorm
    rw [show (Real.pi ^ 2 + 0 ^ 2 + 0 ^ 2 : ℝ) = Real.pi ^ 2 by ring,
      Real.sqrt_sq hπ.le]
  unfold clampMag at h
  rw [hnorm] at h
  by_cases hcase : C < Real.pi
  · rw [if_pos hcase] at h
    simp only [vecScale] at h
    have hC' : Real.pi * 1.5 = C := by
      field_simp at h
      nlinarith
    nlinarith
  · rw [if_neg hcase] at h
    simp only at h
    nlinarith

/-- C9 amended.  The implementation's `calculateOrientingTorque` returns
the zero vector whenever the two orientations nearly coincide (the
difference quaternion's `w` has absolute value at least `0.9999`, which
includes `current = target` for unit quaternions), and otherwise — for
unit inputs in the generic branch with nonnegative strength — produces a
vector of magnitude exactly `angle × strength × 1.5`, with no internal
magnitude clamp (the only clamp in the pipeline is the caller's
angular-speed ceiling of 10). -/
theorem orienting_torque_amended :
    (∀ (current target : Quat) (strength : ℝ),
        0.9999 ≤ |(quatMul target (quatConj current)).w| →
        calculateOrientingTorque current target strength = ⟨0, 0, 0⟩) ∧
    (∀ (current target : Quat) (strength : ℝ),
        unitQ current → unitQ target → 0 ≤ strength →
        |(quatMul target (quatConj current)).w| < 0.9999 →
        vecNorm (calculateOrientingTorque current target strength) =
          specDeltaAngle current target * strength * 1.5) := by
  constructor
  · intro current target strength h
    simp only [calculateOrientingTorque]
    rw [if_neg (not_lt.2 h)]
    apply Vec3.ext <;> simp [vecScale]
  · intro current target strength hcu htu hs habs
    set d := quatMul target (quatConj current) with hd
    have hdunit : normSqQ d = 1 := by
      rw [hd, normSqQ_mul, normSqQ_conj, hcu, htu, mul_one]
    have himag : d.x ^ 2 + d.y ^ 2 + d.z ^ 2 = 1 - d.w * d.w := by
      unfold normSqQ at hdunit
      nlinarith [hdunit]
    have hwsq : d.w * d.w < 0.9999 * 0.9999 := by
      nlinarith [sq_abs d.w, abs_nonneg d.w, habs]
    have hpos : (0.0001 : ℝ) ^ 2 < 1 - d.w * d.w := by nlinarith
    have hssq : (0 : ℝ) < 1 - d.w * d.w := by nlinarith
    have hsgt : (0.0001 : ℝ) < Real.sqrt (1 - d.w * d.w) :=
      (Real.lt_sqrt (by norm_num)).2 hpos
    simp only [calculateOrientingTorque]
    rw [← hd]
    rw [if_pos habs, if_pos hsgt]
    have hsq : Real.sqrt (1 - d.w * d.w) ^ 2 = 1 - d.w * d.w :=
      Real.sq_sqrt hssq.le
    have hsne : Real.sqrt (1 - d.w * d.w) ≠ 0 := by positivity
    have hraw : vecNorm ⟨d.x / Real.sqrt (1 - d.w * d.w),
        d.y / Real.sqrt (1 - d.w * d.w), d.z / Real.sqrt (1 - d.w * d.w)⟩ = 1 := by
      unfold vecNorm
      rw [show (d.x / Real.sqrt (1 - d.w * d.w)) ^ 2 +
          (d.y / Real.sqrt (1 - d.w * d.w)) ^ 2 +
          (d.z / Real.sqrt (1 - d.w * d.w)) ^ 2 =
          (d.x ^ 2 + d.y ^ 2 + d.z ^ 2) / Real.sqrt (1 - d.w * d.w) ^ 2 by ring,
        himag, hsq, div_self (by nlinarith), Real.sqrt_one]
    have hnorm1 : vecNorm (vecNormalize ⟨d.x / Real.sqrt (1 - d.w * d.w),
        d.y / Real.sqrt (1 - d.w * d.w), d.z / Real.sqrt (1 - d.w * d.w)⟩) = 1 := by
      unfold vecNormalize
      rw [hraw]
      simpa [hraw] using hraw
    rw [vecNorm_scale, hnorm1, mul_one]
    have hang : 0 ≤ 2 * Real.arccos d.w * strength * 1.5 := by
      have := Real.arccos_nonneg d.w
      positivity
    rw [abs_of_nonneg hang]
    unfold specDeltaAngle
    rw [← hd]

/-- Witness for the amended C9 theorem: the near-coincident branch at
`current = target = qId`, and the generic branch at the
identity-to-x-180° pair with strength 2. -/
theorem orienting_torque_amended_witness :
    calculateOrientingTorque qId qId 3 = ⟨0, 0, 0⟩ ∧
    vecNorm (calculateOrientingTorque qId qX180 2) =
      specDeltaAngle qId qX180 * 2 * 1.5 :=
  ⟨orienting_torque_amended.1 qId qId 3
      (by norm_num [quatMul, quatConj, qId]),
   orienting_torque_amended.2 qId qX180 2 (by norm_num [unitQ, normSqQ, qId])
     (by norm_num [unitQ, normSqQ, qX180]) (by norm_num)
     (by norm_num [quatMul, quatConj, qId, qX180])⟩

/-- One recorder timestamp step strictly grows. -/
theorem recorder_ts_step (x : ℝ) :
    x * (1000 / 60) * 6 < (x + 1) * (1000 / 60) * 6 := by
  nlinarith []

/-- Invariant of the recorder fold: a strictly increasing buffer whose
timestamps stay below the next synthetic timestamp keeps both properties
through any further captures. -/
theorem recorder_foldl_chain (captures : List (List DieState)) :
    ∀ frames : List Frame,
      frames.Chain' (fun a b => a.timestamp < b.timestamp) →
      (∀ f ∈ frames, f.timestamp < (frames.length : ℝ) * (1000 / 60) * 6) →
      (captures.foldl recordShadowFrame frames).Chain'
        (fun a b => a.timestamp < b.timestamp) := by
  induction captures with
  | nil => intro frames h _; simpa using h
  | cons c cs ih =>
    intro frames hch hbd
    simp only [List.foldl_cons]
    apply ih
    · unfold recordShadowFrame
      rw [List.chain'_append]
      refine ⟨hch, List.chain'_singleton _, ?_⟩
      intro x hx y hy
      simp only [List.head?_cons, Option.mem_def, Option.some.injEq] at hy
      subst hy
      exact hbd x (List.mem_of_mem_getLast? hx)
    · intro f hf
      unfold recordShadowFrame at hf
      simp only [List.mem_append, List.mem_singleton] at hf
      have hlen : ((recordShadowFrame frames c).length : ℝ) =
          (frames.length : ℝ) + 1 := by
        unfold recordShadowFrame
        simp
      rw [hlen]
      rcases hf with hf | hf
      · exact lt_trans (hbd f hf) (recorder_ts_step _)
      · rw [hf]
        exact recorder_ts_step _

/-- Recorder-produced timestamps are strictly increasing. -/
theorem recorder_chain (captures : List (List DieState)) :
    (recorderFrames captures).Chain' (fun a b => a.timestamp < b.timestamp) := by
  unfold recorderFrames
  exact recorder_foldl_chain captures [] (by simp) (by simp)

/-- The backward settle scan only returns indices below its cursor. -/
theorem settleScan_lt (frames : List Frame) :
    ∀ n i, settleScan frames n = some i → i < n := by
  intro n
  induction n with
  | zero => intro i h; simp [settleScan] at h
  | succ n ih =>
    intro i h
    simp only [settleScan] at h
    split at h
    · injection h with h'
      omega
    · exact Nat.lt_succ_of_lt (ih i h)

/-- The settle index is always below the frame count of a non-empty
recording (found indices come with a backward offset; the fallback is
two thirds of the length). -/
theorem findSettleIndex_lt (frames : List Frame) (h : 1 ≤ frames.length) :
    findSettleIndex frames < frames.length := by
  unfold findSettleIndex
  rcases hscan : settleScan frames frames.length with _ | i
  · exact (by omega : frames.length * 2 / 3 < frames.length)
  · exact settleScan_lt frames _ i hscan

/-- The generation loop of the physics-influenced phase produces exactly
as many frames as its fuel. -/
theorem cntfGo_length (sF : Frame) (oF : List Frame) (tg : List Quat) (sf : ℝ)
    (rv : ℕ → ℕ → ℝ × ℝ) (total : ℕ) :
    ∀ (fuel i : ℕ) (prev : Frame),
      (cntfGo sF oF tg sf rv total fuel i prev).length = fuel := by
  intro fuel
  induction fuel with
  | zero => intro i prev; rfl
  | succ n ih => intro i prev; simp [cntfGo, ih]

/-- Length of the physics-influenced phase: the influence range's length
(or the 40-frame fallback) plus the damped cushion frame. -/
theorem cntf_length (sF : Frame) (oF : List Frame) (tv : List ℕ) (sf : ℝ)
    (randY : ℕ → ℝ) (randVel : ℕ → ℕ → ℝ × ℝ) :
    (createNaturalTransitionFrames sF oF tv sf randY randVel).length =
      (if 0 < oF.length then oF.length else 40) + 1 := by
  simp only [createNaturalTransitionFrames]
  have hlen := cntfGo_length sF oF
    (mapWithIdx (fun idx v => calculateLandingOrientation v (randY idx)) 0 tv) sf randVel
    (if 0 < oF.length then oF.length else 40)
    (if 0 < oF.length then oF.length else 40) 0 sF
  have h1 : 1 ≤ (if 0 < oF.length then oF.length else 40) := by split <;> omega
  have hne : cntfGo sF oF
      (mapWithIdx (fun idx v => calculateLandingOrientation v (randY idx)) 0 tv) sf randVel
      (if 0 < oF.length then oF.length else 40)
      (if 0 < oF.length then oF.length else 40) 0 sF ≠ [] := by
    intro hnil
    rw [hnil] at hlen
    simp at hlen
    omega
  obtain ⟨last, hlast⟩ := Option.isSome_iff_exists.mp (List.getLast?_isSome.mpr hne)
  rw [hlast]
  simp [hlen]

/-- The physics-influenced phase is never empty. -/
theorem cntf_ne_nil (sF : Frame) (oF : List Frame) (tv : List ℕ) (sf : ℝ)
    (randY : ℕ → ℝ) (randVel : ℕ → ℕ → ℝ × ℝ) :
    createNaturalTransitionFrames sF oF tv sf randY randVel ≠ [] := by
  intro h
  have hl := cntf_length sF oF tv sf randY randVel
  rw [h] at hl
  simp at hl

/-- The first closing-transition frame reuses the start frame's
timestamp. -/
theorem ctfFrame_zero_timestamp (sF : Frame) (tg : List Quat) (n : ℕ) :
    (ctfFrame sF tg n 0).timestamp = sF.timestamp := by
  simp [ctfFrame]

/-- Head decomposition of the closing-transition generator. -/
theorem ctf_cons (sF : Frame) (tv : List ℕ) (n : ℕ) (h : 0 < n) :
    ∃ rest, createTransitionFrames sF tv n =
      ctfFrame sF (tv.map calculateOrientationForFaceValue) n 0 :: rest := by
  simp only [createTransitionFrames]
  obtain ⟨m, rfl⟩ : ∃ m, n = m + 1 := ⟨n - 1, by omega⟩
  rw [List.range_succ_eq_map, List.map_cons]
  set f0 := ctfFrame sF (tv.map calculateOrientationForFaceValue) (m + 1) 0 with hf0
  set rest0 := ((List.range m).map Nat.succ).map
    (ctfFrame sF (tv.map calculateOrientationForFaceValue) (m + 1)) with hrest0
  have hne : f0 :: rest0 ≠ [] := by simp
  obtain ⟨last, hlast⟩ := Option.isSome_iff_exists.mp (List.getLast?_isSome.mpr hne)
  rw [hlast]
  refine ⟨rest0 ++ [zeroVelFrame last], ?_⟩
  simp

/-- Decomposition of the frames of a rigged recording into the three
phases. -/
theorem rig_frames_eq (randY : ℕ → ℝ) (randVel : ℕ → ℕ → ℝ × ℝ)
    (desired : List ℕ) (rec : ShadowRecording) (hne : desired ≠ [])
    (hlen : 10 ≤ rec.frames.length) :
    (rigRecording true desired randY randVel rec).frames =
      rec.frames.take (findMidairPoint rec.frames) ++
      createNaturalTransitionFrames (rec.frames.getD (findMidairPoint rec.frames) default)
        ((rec.frames.drop (findMidairPoint rec.frames)).take
          (min (findSettleIndex rec.frames) rec.frames.length - findMidairPoint rec.frames))
        desired 0.9 randY randVel ++
      (if findSettleIndex rec.frames < rec.frames.length then
        createTransitionFrames
          ((createNaturalTransitionFrames
              (rec.frames.getD (findMidairPoint rec.frames) default)
              ((rec.frames.drop (findMidairPoint rec.frames)).take
                (min (findSettleIndex rec.frames) rec.frames.length -
                  findMidairPoint rec.frames))
              desired 0.9 randY randVel).getLastD default)
          desired 15
      else []) := by
  unfold rigRecording
  rw [if_neg (by simp), if_neg (by simpa using hne), if_neg (by omega)]

/-- Every recording the Rigging Engine actually rigs contains two
adjacent frames with equal timestamps: the closing-transition phase
starts at the very timestamp of the damped cushion frame that ends the
physics-influenced phase. -/
theorem rig_tie (randY : ℕ → ℝ) (randVel : ℕ → ℕ → ℝ × ℝ) (desired : List ℕ)
    (rec : ShadowRecording) (hne : desired ≠ []) (hlen : 10 ≤ rec.frames.length) :
    ∃ pre f1 f2 post,
      (rigRecording true desired randY randVel rec).frames =
        pre ++ f1 :: f2 :: post ∧ f1.timestamp = f2.timestamp := by
  have hset : findSettleIndex rec.frames < rec.frames.length :=
    findSettleIndex_lt _ (by omega)
  rw [rig_frames_eq randY randVel desired rec hne hlen, if_pos hset]
  set phys := createNaturalTransitionFrames
    (rec.frames.getD (findMidairPoint rec.frames) default)
    ((rec.frames.drop (findMidairPoint rec.frames)).take
      (min (findSettleIndex rec.frames) rec.frames.length - findMidairPoint rec.frames))
    desired 0.9 randY randVel with hphys
  have hpne : phys ≠ [] := hphys ▸ cntf_ne_nil _ _ _ _ _ _
  obtain ⟨rest, hctf⟩ := ctf_cons (phys.getLastD default) desired 15 (by norm_num)
  obtain ⟨tf, d, hdecomp⟩ : ∃ tf d, phys = tf ++ [d] :=
    ⟨phys.dropLast, phys.getLast hpne, (List.dropLast_append_getLast hpne).symm⟩
  have hlastD : phys.getLastD default = d := by
    rw [hdecomp, List.getLastD_eq_getLast?, List.getLast?_concat]
    rfl
  rw [hlastD] at hctf
  refine ⟨rec.frames.take (findMidairPoint rec.frames) ++ tf, d,
    ctfFrame d (desired.map calculateOrientationForFaceValue) 15 0, rest, ?_, ?_⟩
  · rw [hlastD, hctf, hdecomp]
    simp [List.append_assoc]
  · exact (ctfFrame_zero_timestamp d _ 15).symm

/-- Counterexample for C2: rigging the concrete ten-frame recording
produces a frame sequence whose timestamps are not strictly increasing
(the influenced→closing phase boundary repeats a timestamp). -/
theorem frame_ordering_cex :
    ¬ (rigRecording true [2] (fun _ => 1 / 2) (fun _ _ => (1 / 2, 1 / 2))
        tenFrameRec).frames.Chain' (fun a b => a.timestamp < b.timestamp) := by
  intro hch
  obtain ⟨pre, f1, f2, post, heq, hts⟩ :=
    rig_tie (fun _ => 1 / 2) (fun _ _ => (1 / 2, 1 / 2)) [2] tenFrameRec
      (by decide) (by simp [tenFrameRec])
  rw [heq] at hch
  have h2 := (List.chain'_append.mp hch).2.1
  have h3 := (List.chain'_cons.mp h2).1
  rw [hts] at h3
  exact lt_irrefl _ h3

/-- C2 amended.  Recorder-produced timestamps are strictly increasing,
and the Rigging Engine keeps them increasing within and between the
natural and physics-influenced phases — but the first closing-transition
frame reuses the timestamp of the last physics-influenced frame, so
every recording the engine actually rigs contains exactly this one
adjacent timestamp tie and its frame sequence is not strictly
increasing. -/
theorem frame_ordering_amended :
    (∀ captures : List (List DieState),
        (recorderFrames captures).Chain' (fun a b => a.timestamp < b.timestamp)) ∧
    (∀ (randY : ℕ → ℝ) (randVel : ℕ → ℕ → ℝ × ℝ) (desired : List ℕ)
        (rec : ShadowRecording), desired ≠ [] → 10 ≤ rec.frames.length →
        ∃ pre f1 f2 post,
          (rigRecording true desired randY randVel rec).frames =
            pre ++ f1 :: f2 :: post ∧ f1.timestamp = f2.timestamp) :=
  ⟨recorder_chain, fun randY randVel desired rec hne hlen =>
    rig_tie randY randVel desired rec hne hlen⟩

/-- Witness for the amended C2 theorem at a concrete capture sequence
and the concrete ten-frame recording. -/
theorem frame_ordering_amended_witness :
    (recorderFrames [[zeroState], [zeroState]]).Chain'
      (fun a b => a.timestamp < b.timestamp) ∧
    ∃ pre f1 f2 post,
      (rigRecording true [2] (fun _ => 1 / 2) (fun _ _ => (1 / 2, 1 / 2))
          tenFrameRec).frames = pre ++ f1 :: f2 :: post ∧
        f1.timestamp = f2.timestamp :=
  ⟨frame_ordering_amended.1 [[zeroState], [zeroState]],
   frame_ordering_amended.2 (fun _ => 1 / 2) (fun _ _ => (1 / 2, 1 / 2)) [2]
     tenFrameRec (by decide) (by simp [tenFrameRec])⟩

/-- One negative step of the backward settle scan. -/
theorem settleScan_step_neg (frames : List Frame) (i : ℕ)
    (h : ¬ allSlow (frames.getD i default)) :
    settleScan frames (i + 1) = settleScan frames i := by
  simp only [settleScan]
  rw [if_neg h]

/-- One positive step of the backward settle scan. -/
theorem settleScan_step_pos (frames : List Frame) (i : ℕ)
    (h : allSlow (frames.getD i default)) :
    settleScan frames (i + 1) = some (i - 5) := by
  simp only [settleScan]
  rw [if_pos h]

/-- The resting single-die frame passes the settle test. -/
theorem allSlow_slowF : allSlow slowF := by
  intro s hs
  simp only [slowF, List.mem_singleton] at hs
  subst hs
  rw [show (zeroState.velocity.x ^ 2 + zeroState.velocity.y ^ 2 +
      zeroState.velocity.z ^ 2 : ℝ) = 0 by norm_num [zeroState]]
  rw [Real.sqrt_zero]
  norm_num

/-- The threshold-speed frame fails the settle test (the comparison is
strict). -/
theorem not_allSlow_fastF : ¬ allSlow fastF := by
  intro h
  have h2 := h fastState (by simp [fastF])
  rw [show (fastState.velocity.x ^ 2 + fastState.velocity.y ^ 2 +
      fastState.velocity.z ^ 2 : ℝ) = 4 by norm_num [fastState]] at h2
  rw [show Real.sqrt 4 = 2 by
    rw [show (4 : ℝ) = 2 ^ 2 by norm_num]; exact Real.sqrt_sq (by norm_num)] at h2
  exact lt_irrefl _ h2

/-- The peak scan never updates on frames of average height zero. -/
theorem peakLoop_zero (l : List Frame) :
    ∀ i pI : ℕ, (∀ f ∈ l, avgHeight f = 0) → peakLoop l i 0 pI = (0, pI) := by
  induction l with
  | nil => intro i pI _; rfl
  | cons f rest ih =>
    intro i pI h
    simp only [peakLoop]
    rw [h f (by simp)]
    rw [if_neg (lt_irrefl 0)]
    exact ih (i + 1) pI (fun g hg => h g (by simp [hg]))

/-- The peak scan returns an index of a scanned frame (or its initial
index). -/
theorem peakLoop_snd_lt (l : List Frame) :
    ∀ (i : ℕ) (pH : ℝ) (pI : ℕ), pI < i + l.length →
      (peakLoop l i pH pI).2 < i + l.length := by
  induction l with
  | nil => intro i pH pI h; simpa [peakLoop] using h
  | cons f rest ih =>
    intro i pH pI h
    simp only [List.length_cons] at h
    simp only [peakLoop, List.length_cons]
    split
    · have := ih (i + 1) (avgHeight f) i (by omega)
      omega
    · have := ih (i + 1) pH pI (by omega)
      omega

/-- The mid-air scan only returns indices within its fuel range. -/
theorem midairScan_lt (frames : List Frame) (pH : ℝ) :
    ∀ fuel i j, midairScan frames pH fuel i = some j → j < i + fuel := by
  intro fuel
  induction fuel with
  | zero => intro i j h; simp [midairScan] at h
  | succ n ih =>
    intro i j h
    simp only [midairScan] at h
    split at h
    · injection h with h'
      omega
    · have := ih (i + 1) j h
      omega

/-- The mid-air index is always below the frame count of a non-empty
recording. -/
theorem findMidairPoint_lt (frames : List Frame) (h : 1 ≤ frames.length) :
    findMidairPoint frames < frames.length := by
  simp only [findMidairPoint]
  rcases hscan : midairScan frames (peakLoop frames 0 0 0).1
      (peakLoop frames 0 0 0).2 0 with _ | i
  · exact (by omega : frames.length / 4 < frames.length)
  · show i < frames.length
    have h1 := midairScan_lt frames _ _ 0 i hscan
    have h2 := peakLoop_snd_lt frames 0 0 0 (by omega)
    omega

/-- Length of the closing-transition phase at the fixed 15-frame
budget: 15 interpolated frames plus the hard-zeroed final frame. -/
theorem ctf_length (sF : Frame) (tv : List ℕ) :
    (createTransitionFrames sF tv 15).length = 16 := by
  simp only [createTransitionFrames]
  set tf := (List.range 15).map
    (ctfFrame sF (tv.map calculateOrientationForFaceValue) 15) with htf
  have hlen : tf.length = 15 := by rw [htf]; simp
  have hne : tf ≠ [] := by intro h; rw [h] at hlen; simp at hlen
  obtain ⟨last, hlast⟩ := Option.isSome_iff_exists.mp (List.getLast?_isSome.mpr hne)
  rw [hlast]
  simp [hlen]

/-- C8 amended.  For every natural Recording with at least 10 frames
whose final frame is settled (every die below the velocity-settle
threshold, as holds for a completed natural recording), the rigged
Recording has at least as many frames as the input.  Without that
settling condition the frame count can shrink (see the
counterexample). -/
theorem rig_count_amended (randY : ℕ → ℝ) (randVel : ℕ → ℕ → ℝ × ℝ)
    (desired : List ℕ) (rec : ShadowRecording)
    (hne : desired ≠ []) (hlen : 10 ≤ rec.frames.length)
    (hsettled : allSlow (rec.frames.getD (rec.frames.length - 1) default)) :
    rec.frames.length ≤ (rigRecording true desired randY randVel rec).frames.length := by
  have hsi : findSettleIndex rec.frames = rec.frames.length - 6 := by
    unfold findSettleIndex
    obtain ⟨m, hm⟩ : ∃ m, rec.frames.length = m + 1 := ⟨rec.frames.length - 1, by omega⟩
    rw [hm]
    rw [settleScan_step_pos rec.frames m
      (by rw [show m = rec.frames.length - 1 by omega]; exact hsettled)]
    exact (by omega : m - 5 = m + 1 - 6)
  have hmid : findMidairPoint rec.frames < rec.frames.length :=
    findMidairPoint_lt _ (by omega)
  have hsetlt : findSettleIndex rec.frames < rec.frames.length := by omega
  rw [rig_frames_eq randY randVel desired rec hne hlen, if_pos hsetlt]
  simp only [List.length_append, cntf_length, ctf_length, List.length_take,
    List.length_drop]
  rw [hsi]
  split <;> omega

/-- Witness for the amended C8 theorem at the concrete resting ten-frame
recording. -/
theorem rig_count_amended_witness :
    tenFrameRec.frames.length ≤
      (rigRecording true [2] (fun _ => 1 / 2) (fun _ _ => (1 / 2, 1 / 2))
        tenFrameRec).frames.length :=
  rig_count_amended (fun _ => 1 / 2) (fun _ _ => (1 / 2, 1 / 2)) [2] tenFrameRec
    (by decide) (by simp [tenFrameRec])
    (by rw [show tenFrameRec.frames.getD (tenFrameRec.frames.length - 1) default =
        slowF from rfl]; exact allSlow_slowF)

/-- A 25-frame single-die natural recording that is at rest for its
first 13 frames and moving at the threshold speed for its last 12: its
settle index falls early, so rigging drops more trailing frames than the
generated phases add back. -/
def c8rec : ShadowRecording :=
  { frames := [slowF, slowF, slowF, slowF, slowF, slowF, slowF, slowF, slowF,
      slowF, slowF, slowF, slowF, fastF, fastF, fastF, fastF, fastF, fastF,
      fastF, fastF, fastF, fastF, fastF, fastF]
    finalResults := [4]
    isComplete := true }

/-- Every frame of the counterexample recording has average height
zero. -/
theorem c8_avg_zero : ∀ f ∈ c8rec.frames, avgHeight f = 0 := by
  intro f hf
  have hslow : avgHeight slowF = 0 := by
    simp [avgHeight, slowF, zeroState]
  have hfast : avgHeight fastF = 0 := by
    simp [avgHeight, fastF, fastState]
  simp only [c8rec, List.mem_cons, List.not_mem_nil, or_false] at hf
  rcases hf with h | h | h | h | h | h | h | h | h | h | h | h | h | h | h | h |
    h | h | h | h | h | h | h | h | h <;> rw [h] <;> first | exact hslow | exact hfast

/-- The mid-air index of the counterexample recording falls back to a
quarter of the length. -/
theorem c8_mid : findMidairPoint c8rec.frames = 6 := by
  simp only [findMidairPoint]
  rw [peakLoop_zero c8rec.frames 0 0 c8_avg_zero]
  rfl

/-- The settle index of the counterexample recording: the backward scan
passes the 12 moving frames and stops at index 12, minus the five-frame
offset. -/
theorem c8_settle : findSettleIndex c8rec.frames = 7 := by
  unfold findSettleIndex
  have hfast : ∀ i : ℕ, 13 ≤ i → i ≤ 24 →
      settleScan c8rec.frames (i + 1) = settleScan c8rec.frames i := by
    intro i h1 h2
    apply settleScan_step_neg
    interval_cases i <;> exact not_allSlow_fastF
  have h13 : settleScan c8rec.frames 13 = some 7 :=
    settleScan_step_pos c8rec.frames 12 allSlow_slowF
  have hchain : settleScan c8rec.frames 25 = some 7 := by
    rw [show (25 : ℕ) = 24 + 1 from rfl, hfast 24 (by norm_num) (by norm_num),
      show (24 : ℕ) = 23 + 1 from rfl, hfast 23 (by norm_num) (by norm_num),
      show (23 : ℕ) = 22 + 1 from rfl, hfast 22 (by norm_num) (by norm_num),
      show (22 : ℕ) = 21 + 1 from rfl, hfast 21 (by norm_num) (by norm_num),
      show (21 : ℕ) = 20 + 1 from rfl, hfast 20 (by norm_num) (by norm_num),
      show (20 : ℕ) = 19 + 1 from rfl, hfast 19 (by norm_num) (by norm_num),
      show (19 : ℕ) = 18 + 1 from rfl, hfast 18 (by norm_num) (by norm_num),
      show (18 : ℕ) = 17 + 1 from rfl, hfast 17 (by norm_num) (by norm_num),
      show (17 : ℕ) = 16 + 1 from rfl, hfast 16 (by norm_num) (by norm_num),
      show (16 : ℕ) = 15 + 1 from rfl, hfast 15 (by norm_num) (by norm_num),
      show (15 : ℕ) = 14 + 1 from rfl, hfast 14 (by norm_num) (by norm_num),
      show (14 : ℕ) = 13 + 1 from rfl, hfast 13 (by norm_num) (by norm_num)]
    exact h13
  rw [show c8rec.frames.length = 25 from rfl, hchain]

/-- Counterexample for C8: the 25-frame recording above, rigged to the
valid desired-results list `[4]`, yields only 24 frames — the rigged
frame count is strictly below the input frame count. -/
theorem rig_count_cex :
    ([4] : List ℕ).length = c8rec.dieCount ∧
    (∀ v ∈ ([4] : List ℕ), 1 ≤ v ∧ v ≤ 6) ∧
    10 ≤ c8rec.frames.length ∧
    (rigRecording true [4] (fun _ => 1 / 2) (fun _ _ => (1 / 2, 1 / 2))
        c8rec).frames.length < c8rec.frames.length := by
  refine ⟨by simp [c8rec, ShadowRecording.dieCount], by decide,
    by rw [show c8rec.frames.length = 25 from rfl]; omega, ?_⟩
  have hsetlt : findSettleIndex c8rec.frames < c8rec.frames.length := by
    rw [c8_settle, show c8rec.frames.length = 25 from rfl]
    omega
  rw [rig_frames_eq (fun _ => 1 / 2) (fun _ _ => (1 / 2, 1 / 2)) [4] c8rec
    (by decide) (by rw [show c8rec.frames.length = 25 from rfl]; omega), if_pos hsetlt]
  simp only [List.length_append, cntf_length, ctf_length, List.length_take,
    List.length_drop, c8_mid, c8_settle,
    show c8rec.frames.length = 25 from rfl]
  norm_num


/-- The results the spec says playback must report: the Recording's
`desiredResults` when it is rigged, its natural `finalResults`
otherwise. -/
def reportedResults (rec : ShadowRecording) : List ℕ :=
  if rec.isRigged.getD false = true then rec.desiredResults.getD []
  else rec.finalResults

/-- In a timestamp-sorted frame list every timestamp is bounded by the
last frame's timestamp. -/
theorem sorted_le_last (frames : List Frame) (hne : frames ≠ [])
    (hs : frames.Chain' (fun a b => a.timestamp ≤ b.timestamp))
    (j : ℕ) (hj : j < frames.length) :
    (frames.getD j default).timestamp ≤ (frames.getLastD default).timestamp := by
  have inst : IsTrans Frame (fun a b => a.timestamp ≤ b.timestamp) :=
    ⟨fun a b c hab hbc => le_trans hab hbc⟩
  have hpw : frames.Pairwise (fun a b => a.timestamp ≤ b.timestamp) :=
    (@List.chain'_iff_pairwise Frame (fun a b => a.timestamp ≤ b.timestamp)
      inst frames).mp hs
  have hlen : 0 < frames.length := List.length_pos.mpr hne
  have hgetD : frames.getD j default = frames.get ⟨j, hj⟩ := by
    simp [List.getD_eq_getElem?_getD, List.getElem?_eq_getElem hj]
  have hlast : frames.getLastD default = frames.get ⟨frames.length - 1, by omega⟩ := by
    rw [List.getLastD_eq_getLast?, List.getLast?_eq_getLast_of_ne_nil hne]
    simp [List.getLast_eq_getElem]
  rw [hgetD, hlast]
  rcases Nat.lt_or_ge j (frames.length - 1) with h | h
  · exact List.pairwise_iff_get.mp hpw ⟨j, hj⟩ ⟨frames.length - 1, by omega⟩ h
  · have hj' : j = frames.length - 1 := by omega
    have heq : (⟨j, hj⟩ : Fin frames.length) = ⟨frames.length - 1, by omega⟩ :=
      Fin.ext hj'
    rw [heq]

/-- Once elapsed time reaches the last timestamp of a sorted recording,
the bracketing-pair search fails. -/
theorem findBracket_none_of_late (frames : List Frame)
    (hs : frames.Chain' (fun a b => a.timestamp ≤ b.timestamp)) (hne : frames ≠ [])
    (e : ℝ) (he : (frames.getLastD default).timestamp ≤ e) :
    findBracket frames e = none := by
  unfold findBracket
  rw [List.find?_eq_none]
  intro i hi
  simp only [List.mem_range] at hi
  simp only [decide_eq_true_eq]
  rintro ⟨h1, h2⟩
  have hb := sorted_le_last frames hne hs (i + 1) (by omega)
  linarith

/-- A tick before the grace deadline leaves the playback bookkeeping
untouched, reports nothing and reschedules. -/
theorem updatePlayback_nonfinal (extSlerp : Quat → Quat → ℝ → Quat)
    (rec : ShadowRecording) (now₀ : ℝ) (s : PlaybackSim)
    (hp : s.playback = initPlayback rec now₀) (hne : rec.frames ≠ []) (now : ℝ)
    (hlt : now - now₀ < (rec.frames.getLastD default).timestamp + 100) :
    (updatePlayback extSlerp s now).1.playback = s.playback ∧
    (updatePlayback extSlerp s now).2.1 = none ∧
    (updatePlayback extSlerp s now).2.2 = true := by
  obtain ⟨cubes₀, pb, roll, thr⟩ := s
  dsimp only at hp
  subst hp
  unfold updatePlayback
  simp only [initPlayback]
  rw [if_neg (by simp [hne])]
  rcases hbr : findBracket rec.frames (now - now₀) with _ | i
  · by_cases hge : (rec.frames.getLastD default).timestamp ≤ now - now₀
    · rw [if_pos hge, if_neg (not_le.mpr hlt)]
      exact ⟨rfl, rfl, rfl⟩
    · rw [if_neg hge]
      exact ⟨rfl, rfl, rfl⟩
  · exact ⟨rfl, rfl, rfl⟩

/-- A tick past the grace deadline finalizes: bodies frozen, the
spec-reported results emitted, no reschedule. -/
theorem updatePlayback_final (extSlerp : Quat → Quat → ℝ → Quat)
    (rec : ShadowRecording) (now₀ : ℝ) (s : PlaybackSim)
    (hp : s.playback = initPlayback rec now₀) (hne : rec.frames ≠ [])
    (hsorted : rec.frames.Chain' (fun a b => a.timestamp ≤ b.timestamp))
    (hwf : rec.isRigged.getD false = true →
      ∃ l, rec.desiredResults = some l ∧ l ≠ []) (now : ℝ)
    (hge : (rec.frames.getLastD default).timestamp + 100 ≤ now - now₀) :
    (updatePlayback extSlerp s now).2.1 = some (reportedResults rec) ∧
    (updatePlayback extSlerp s now).2.2 = false ∧
    ∀ c ∈ (updatePlayback extSlerp s now).1.cubes,
      c.btype = BodyType.static ∧ c.velocity = ⟨0, 0, 0⟩ ∧
        c.angularVelocity = ⟨0, 0, 0⟩ := by
  obtain ⟨cubes₀, pb, roll, thr⟩ := s
  dsimp only at hp
  subst hp
  unfold updatePlayback
  simp only [initPlayback]
  rw [if_neg (by simp [hne])]
  rw [findBracket_none_of_late rec.frames hsorted hne (now - now₀) (by linarith)]
  rw [if_pos (by linarith : (rec.frames.getLastD default).timestamp ≤ now - now₀)]
  rw [if_pos hge]
  have hres : (if rec.isRigged.getD false = true ∧
      (if rec.isRigged.getD false = true ∧ rec.desiredResults.isSome = true then
        rec.desiredResults.getD []
      else rec.finalResults).length ≠ 0 then
      (if rec.isRigged.getD false = true ∧ rec.desiredResults.isSome = true then
        rec.desiredResults.getD []
      else rec.finalResults)
    else rec.finalResults) = reportedResults rec := by
    by_cases hr : rec.isRigged.getD false = true
    · obtain ⟨l, hl, hlne⟩ := hwf hr
      have hinner : (if rec.isRigged.getD false = true ∧
          rec.desiredResults.isSome = true then rec.desiredResults.getD []
        else rec.finalResults) = l := by
        rw [if_pos ⟨hr, by simp [hl]⟩]
        simp [hl]
      rw [hinner, if_pos ⟨hr, by simpa using hlne⟩]
      simp [reportedResults, hr, hl]
    · rw [if_neg (by simp [hr]), reportedResults, if_neg hr]
  refine ⟨?_, rfl, ?_⟩
  · simpa using congrArg some hres
  · intro c hc
    simp only [finalizePlayback, List.mem_map] at hc
    obtain ⟨c₀, _, rfl⟩ := hc
    exact ⟨rfl, rfl, rfl⟩

/-- The animation loop from a freshly initialized playback state emits
exactly one finalization event once some tick passes the grace deadline,
and leaves every visible body static with zeroed velocities. -/
theorem runPlayback_final (extSlerp : Quat → Quat → ℝ → Quat) (rec : ShadowRecording)
    (now₀ : ℝ) (hne : rec.frames ≠ [])
    (hsorted : rec.frames.Chain' (fun a b => a.timestamp ≤ b.timestamp))
    (hwf : rec.isRigged.getD false = true →
      ∃ l, rec.desiredResults = some l ∧ l ≠ []) :
    ∀ (ticks : List ℝ) (s : PlaybackSim), s.playback = initPlayback rec now₀ →
      (∃ t ∈ ticks, (rec.frames.getLastD default).timestamp + 100 ≤ t - now₀) →
      (runPlayback extSlerp s ticks).2 = [reportedResults rec] ∧
      ∀ c ∈ (runPlayback extSlerp s ticks).1.cubes,
        c.btype = BodyType.static ∧ c.velocity = ⟨0, 0, 0⟩ ∧
          c.angularVelocity = ⟨0, 0, 0⟩ := by
  intro ticks
  induction ticks with
  | nil =>
    intro s _ hex
    simp at hex
  | cons t ts ih =>
    intro s hp hex
    by_cases hq : (rec.frames.getLastD default).timestamp + 100 ≤ t - now₀
    · obtain ⟨hev, hcont, hcubes⟩ :=
        updatePlayback_final extSlerp rec now₀ s hp hne hsorted hwf t hq
      have hrun : runPlayback extSlerp s (t :: ts) =
          ((updatePlayback extSlerp s t).1, (updatePlayback extSlerp s t).2.1.toList) := by
        simp only [runPlayback]
        rw [if_neg (by rw [hcont]; simp)]
      rw [hrun]
      refine ⟨?_, ?_⟩
      · rw [show ((updatePlayback extSlerp s t).1,
          (updatePlayback extSlerp s t).2.1.toList).2 =
          (updatePlayback extSlerp s t).2.1.toList from rfl, hev]
        rfl
      · intro c hc
        exact hcubes c (by simpa using hc)
    · obtain ⟨hpb, hev, hcont⟩ := updatePlayback_nonfinal extSlerp rec now₀ s hp hne t
        (by linarith [not_le.mp hq])
      have hrun : runPlayback extSlerp s (t :: ts) =
          ((runPlayback extSlerp (updatePlayback extSlerp s t).1 ts).1,
            (updatePlayback extSlerp s t).2.1.toList ++
              (runPlayback extSlerp (updatePlayback extSlerp s t).1 ts).2) := by
        simp only [runPlayback]
        rw [if_pos hcont]
      rw [hrun]
      obtain ⟨t', ht', hq'⟩ := hex
      have ht'' : t' ∈ ts := by
        rcases List.mem_cons.mp ht' with rfl | h
        · exact absurd hq' hq
        · exact h
      have hrec := ih (updatePlayback extSlerp s t).1 (hpb.trans hp) ⟨t', ht'', hq'⟩
      refine ⟨?_, ?_⟩
      · rw [show ((runPlayback extSlerp (updatePlayback extSlerp s t).1 ts).1,
          (updatePlayback extSlerp s t).2.1.toList ++
            (runPlayback extSlerp (updatePlayback extSlerp s t).1 ts).2).2 =
          (updatePlayback extSlerp s t).2.1.toList ++
            (runPlayback extSlerp (updatePlayback extSlerp s t).1 ts).2 from rfl, hev]
        simpa using hrec.1
      · simpa using hrec.2

/-- C4.  For every playback run over a non-empty, time-ordered Recording
with well-formed rigging metadata, once some animation tick's elapsed
time passes the last frame's timestamp plus the 100 ms grace window, the
Playback Driver finalizes exactly once: the event list of the whole run
is a single report, equal to the Recording's desiredResults when
isRigged is set and to its natural finalResults otherwise, and every
visible body ends static with zeroed velocities. -/
theorem playback_finalize_once (extSlerp : Quat → Quat → ℝ → Quat)
    (cubes : List BodyState) (rollResults₀ : Option (List ℕ)) (isThrowing₀ : Bool)
    (rec : ShadowRecording) (now₀ : ℝ) (ticks : List ℝ)
    (hne : rec.frames ≠ [])
    (hsorted : rec.frames.Chain' (fun a b => a.timestamp ≤ b.timestamp))
    (hwf : rec.isRigged.getD false = true →
      ∃ l, rec.desiredResults = some l ∧ l ≠ [])
    (hex : ∃ t ∈ ticks, (rec.frames.getLastD default).timestamp + 100 ≤ t - now₀) :
    (runPlayback extSlerp
        ⟨cubes, initPlayback rec now₀, rollResults₀, isThrowing₀⟩ ticks).2 =
      [reportedResults rec] ∧
    ∀ c ∈ (runPlayback extSlerp
        ⟨cubes, initPlayback rec now₀, rollResults₀, isThrowing₀⟩ ticks).1.cubes,
      c.btype = BodyType.static ∧ c.velocity = ⟨0, 0, 0⟩ ∧
        c.angularVelocity = ⟨0, 0, 0⟩ :=
  runPlayback_final extSlerp rec now₀ hne hsorted hwf ticks _ rfl hex

/-- A visible dynamic body at rest, used by the C4 witness. -/
def sampleBody : BodyState :=
  ⟨BodyType.dynamic, ⟨0, 0, 0⟩, ⟨0, 0, 0, 1⟩, ⟨0, 0, 0⟩, ⟨0, 0, 0⟩, true⟩

/-- A one-frame natural recording, used by the C4 witness. -/
def oneFrameRec : ShadowRecording :=
  { frames := [slowF], finalResults := [4], isComplete := true }

/-- Witness for C4: a single tick at 200 ms past a recording whose only
frame is at 0 ms finalizes with the natural results. -/
theorem playback_finalize_once_witness :
    (runPlayback (fun a _ _ => a)
        ⟨[sampleBody], initPlayback oneFrameRec 0, none, true⟩ [200]).2 =
      [reportedResults oneFrameRec] ∧
    ∀ c ∈ (runPlayback (fun a _ _ => a)
        ⟨[sampleBody], initPlayback oneFrameRec 0, none, true⟩ [200]).1.cubes,
      c.btype = BodyType.static ∧ c.velocity = ⟨0, 0, 0⟩ ∧
        c.angularVelocity = ⟨0, 0, 0⟩ :=
  playback_finalize_once (fun a _ _ => a) [sampleBody] none true oneFrameRec 0 [200]
    (by simp [oneFrameRec]) (by simp [oneFrameRec]) (by simp [oneFrameRec])
    ⟨200, by simp, by norm_num [oneFrameRec, slowF]⟩
